import Mathlib

/-!
Verification of the task-serialization and output-reconciliation core of the
pks-vscode extension (`src/taskQueue.ts`, `src/pks.ts`, `src/pksOutput.ts`).

The development shallowly embeds the TypeScript source:
* pure string manipulation is translated to Lean functions on `String`
  (operating on `String.toList`, since JS strings are character sequences);
* the `Task` / `TaskQueue` classes become an explicit state machine
  (`QState`) driven by external events (enqueue, cancel-by-uri, child-process
  completion), with the JS microtask drain performed at the end of each event;
* the diagnostic collection becomes a map from uri strings to diagnostic
  lists, and the `onDidExec` closures become pure update functions;
* the JSON decoding done by the missing `outputParser.ts` module is modelled
  from the spec as a small executable JSON parser plus a lenient decoder.
-/

/-! ## Character constants

Named characters used throughout (JSON delimiters, quotes, whitespace). -/

def quoteC : Char := Char.ofNat 34

def aposC : Char := Char.ofNat 39

def backslashC : Char := Char.ofNat 92

def lbraceC : Char := Char.ofNat 123

def rbraceC : Char := Char.ofNat 125

def nlC : Char := Char.ofNat 10

def crC : Char := Char.ofNat 13

def tabC : Char := Char.ofNat 9

def spaceC : Char := Char.ofNat 32

/-! ## JS string primitives

Faithful models of the JavaScript string operations used by the source. -/

/-- Model of JS `String.prototype.endsWith`. -/
def jsEndsWith (s suffixStr : String) : Bool :=
  suffixStr.toList.isSuffixOf s.toList

/-- Model of JS `s.slice(0, n)` for `0 ≤ n` (take the first `n` characters). -/
def jsTake (s : String) (n : Nat) : String :=
  ⟨s.toList.take n⟩

/-- Model of JS `s.substring(i)` (drop the first `i` characters). -/
def jsDrop (s : String) (i : Nat) : String :=
  ⟨s.toList.drop i⟩

/-! ## Pks.getBaseExecutable (src/pks.ts lines 44-50)

```ts
public getBaseExecutable(): string {
  const exe = this.config.executable;
  if (exe.endsWith(' check')) {
    return exe.slice(0, -6);
  }
  return exe;
}
```
`exe.slice(0, -6)` keeps the first `exe.length - 6` characters. -/

def getBaseExecutable (exe : String) : String :=
  if jsEndsWith exe " check" then jsTake exe (exe.toList.length - 6) else exe

/-! ## Pks.cleanMessage (src/pks.ts lines 63-69)

```ts
private cleanMessage(message: string): string {
  const newlineIndex = message.indexOf('\n');
  if (newlineIndex !== -1) {
    return message.substring(newlineIndex + 1);
  }
  return message;
}
```
`indexOf` finds the first occurrence; `substring(i+1)` drops through it. -/

def cleanList (l : List Char) : List Char :=
  match l.findIdx? (· == nlC) with
  | some i => l.drop (i + 1)
  | none => l

def cleanMessage (message : String) : String :=
  ⟨cleanList message.toList⟩

/-! ## Data model (src/pksOutput.ts)

`PksViolation` mirrors the fields of one violation in the checker's JSON
output.  The checker can omit `line`/`column` or give them a non-number
value (the source guards with `typeof violation.line === 'number'`), so
those two fields are `Option Int`; the remaining fields are plain strings
or booleans, defaulting like JS property reads on partially-shaped JSON. -/

structure PksViolation where
  message : String
  file : String
  line : Option Int
  column : Option Int
  violation_type : String
  strict : Bool
  constant_name : String
  referencing_pack_name : String
  defining_pack_name : String
deriving DecidableEq

/-- Decoded shape of one `pks check --json` invocation
(`PksOutput` in src/pksOutput.ts).  The three violation arrays are
`Option` because the source reads them as `pksOutput.violations || []`. -/
structure PksOutput where
  status : String
  violations : Option (List PksViolation)
  stale_violations : Option (List PksViolation)
  strict_mode_violations : Option (List PksViolation)
deriving DecidableEq

/-- Metadata attached to a diagnostic as `_pks` for code actions
(`ViolationMetadata` in src/pksOutput.ts). -/
structure ViolationMetadata where
  file : String
  violation_type : String
  constant_name : String
  referencing_pack_name : String
  defining_pack_name : String
deriving DecidableEq

/-- Metadata attached to a cycle diagnostic as `_pksCycle`
(`CycleDiagnosticMetadata` in src/pksOutput.ts). -/
structure CycleDiagnosticMetadata where
  from_pack : String
  to_pack : String
deriving DecidableEq

/-- A `vscode.Range`: zero-based line/character positions.  `Int` is used
because the source computes `offence.line - 1` on untrusted input. -/
structure VsRange where
  startLine : Int
  startCol : Int
  endLine : Int
  endCol : Int
deriving DecidableEq

inductive VsSeverity where
  | error
  | warning
  | information
  | hint
deriving DecidableEq

/-- A `vscode.Diagnostic` as produced by this extension: range, message,
severity, `source` tag, and the `_pks` / `_pksCycle` metadata fields the
source attaches for code actions. -/
structure VsDiagnostic where
  range : VsRange
  message : String
  severity : VsSeverity
  source : String
  pksMeta : Option ViolationMetadata
  pksCycleMeta : Option CycleDiagnosticMetadata
deriving DecidableEq

/-! ## Pks.hasValidLocation (src/pks.ts lines 58-60)

```ts
private hasValidLocation(violation: PksViolation): boolean {
  return typeof violation.line === 'number' && typeof violation.column === 'number';
}
``` -/

def hasValidLocation (violation : PksViolation) : Bool :=
  violation.line.isSome && violation.column.isSome

/-! ## Pks.createDiagnostic (src/pks.ts lines 72-101)

```ts
const range = new vscode.Range(
  offence.line - 1, offence.column,
  offence.line - 1, offence.constant_name.length + offence.column);
const diagnostic = new vscode.Diagnostic(range, this.cleanMessage(offence.message), severity);
diagnostic.source = 'pks';
(diagnostic as any)._pks = metadata;
```
It is only invoked on violations that passed `hasValidLocation`, so the
`Option` fields are read with a default that is never used on that path.
The `severity` parameter always takes its default `Error` at the call
sites modelled here. -/

def createDiagnostic (offence : PksViolation) : VsDiagnostic :=
  { range :=
      { startLine := offence.line.getD 0 - 1
        startCol := offence.column.getD 0
        endLine := offence.line.getD 0 - 1
        endCol := (offence.constant_name.toList.length : Int) + offence.column.getD 0 }
    message := cleanMessage offence.message
    severity := .error
    source := "pks"
    pksMeta := some
      { file := offence.file
        violation_type := offence.violation_type
        constant_name := offence.constant_name
        referencing_pack_name := offence.referencing_pack_name
        defining_pack_name := offence.defining_pack_name }
    pksCycleMeta := none }

/-! ## Combining the violation buckets

Each of `execute` (lines 474-478), `executeAll` (lines 234-238) and
`executeHighlights` (lines 134-138) computes

```ts
const allViolations = [
  ...(pksOutput.violations || []),
  ...(pksOutput.stale_violations || []),
  ...(pksOutput.strict_mode_violations || []),
].filter(v => this.hasValidLocation(v));
``` -/

def combinedViolations (out : PksOutput) : List PksViolation :=
  out.violations.getD [] ++ out.stale_violations.getD [] ++
    out.strict_mode_violations.getD []

def allValidViolations (out : PksOutput) : List PksViolation :=
  (combinedViolations out).filter hasValidLocation

/-- Diagnostics produced by the single-file path
(`execute`, src/pks.ts lines 482-484):
`allViolations.map((offence) => this.createDiagnostic(offence))`. -/
def executeDiagnostics (out : PksOutput) : List VsDiagnostic :=
  (allValidViolations out).map createDiagnostic

/-! ## The highlight path (executeHighlights, src/pks.ts lines 134-176)

`executeHighlights` strips one leading `::` from the constant name for the
range length, uses `Information` severity, and delivers results through
the `onResults` callback instead of the diagnostic collection. -/

/-- Model of `constant_name.replace(/^::/, '')`: remove one leading `::`. -/
def stripLeadingColons (s : String) : String :=
  match s.toList with
  | c1 :: c2 :: rest => if c1 = ':' ∧ c2 = ':' then ⟨rest⟩ else s
  | _ => s

def highlightRange (offence : PksViolation) : VsRange :=
  { startLine := offence.line.getD 0 - 1
    startCol := offence.column.getD 0
    endLine := offence.line.getD 0 - 1
    endCol := offence.column.getD 0 +
      ((stripLeadingColons offence.constant_name).toList.length : Int) }

def highlightDiagnostic (offence : PksViolation) : VsDiagnostic :=
  { range := highlightRange offence
    message := cleanMessage offence.message
    severity := .information
    source := "pks"
    pksMeta := some
      { file := offence.file
        violation_type := offence.violation_type
        constant_name := offence.constant_name
        referencing_pack_name := offence.referencing_pack_name
        defining_pack_name := offence.defining_pack_name }
    pksCycleMeta := none }

/-- The `(ranges, diagnostics)` pair delivered to `onResults` by
`executeHighlights` when parsing succeeded. -/
def highlightResults (out : PksOutput) : List VsRange × List VsDiagnostic :=
  ((allValidViolations out).map highlightRange,
   (allValidViolations out).map highlightDiagnostic)

/-! ## The diagnostic collection

A `vscode.DiagnosticCollection` is modelled as a total map from uri
strings to diagnostic lists; a uri with no entry maps to `[]`. -/

def DiagMap : Type := String → List VsDiagnostic

/-- Model of `collection.clear()`. -/
def DiagMap.clear (_ : DiagMap) : DiagMap := fun _ => []

/-- Model of `collection.delete(uri)`. -/
def DiagMap.deleteUri (d : DiagMap) (uri : String) : DiagMap :=
  fun u => if u = uri then [] else d u

/-- Model of `collection.set(uri, diagnostics)`. -/
def DiagMap.setUri (d : DiagMap) (uri : String) (ds : List VsDiagnostic) : DiagMap :=
  fun u => if u = uri then ds else d u

/-- Model of `collection.set(entries)` for an entry list: each entry is
stored in turn (later entries for the same uri win, as in VS Code). -/
def DiagMap.setEntries (d : DiagMap) (entries : List (String × List VsDiagnostic)) : DiagMap :=
  entries.foldl (fun m e => m.setUri e.1 e.2) d

/-- Model of `vscode.Uri.file(cwd + '/' + file)` as a uri key. -/
def mkFileUri (cwd file : String) : String :=
  cwd ++ "/" ++ file

/-! ## Grouping by file (executeAll, src/pks.ts lines 244-259)

```ts
const byFile = new Map<string, vscode.Diagnostic[]>();
allViolations.forEach((offence) => {
  const diagnostic = this.createDiagnostic(offence);
  if (!byFile.has(offence.file)) byFile.set(offence.file, []);
  byFile.get(offence.file)!.push(diagnostic);
});
```
A JS `Map` iterates in insertion order, so it is modelled as an
association list extended at the back. -/

def addToGroup (groups : List (String × List VsDiagnostic)) (key : String)
    (diag : VsDiagnostic) : List (String × List VsDiagnostic) :=
  match groups with
  | [] => [(key, [diag])]
  | (k, ds) :: rest =>
    if k = key then (k, ds ++ [diag]) :: rest
    else (k, ds) :: addToGroup rest key diag

def groupByFile (vs : List PksViolation) : List (String × List VsDiagnostic) :=
  vs.foldl (fun g v => addToGroup g v.file (createDiagnostic v)) []

/-- The `[fileUri, diagnostics]` entries built by `executeAll`
(src/pks.ts lines 255-259). -/
def executeAllEntries (out : PksOutput) (cwd : String) :
    List (String × List VsDiagnostic) :=
  (groupByFile (allValidViolations out)).map (fun e => (mkFileUri cwd e.1, e.2))

/-! ## The two diagnostic-state updates

`executeAll`'s completion handler (src/pks.ts lines 242-262) clears the
whole collection and then sets the grouped entries; `execute`'s handler
(lines 480-486) deletes the checked file's entry and sets that single
uri. -/

def executeAllUpdate (out : PksOutput) (cwd : String) (d : DiagMap) : DiagMap :=
  (d.clear).setEntries (executeAllEntries out cwd)

def executeUpdate (uri : String) (out : PksOutput) (d : DiagMap) : DiagMap :=
  (d.deleteUri uri).setUri uri (executeDiagnostics out)

/-! ## JSON values and parsing

The single-file/whole-workspace paths decode stdout through `parseOutput`
from `outputParser.ts`; that module is not part of the sources available
here, so its JSON decoding is modelled from the spec (see `parseOutput`
below).  `executeValidate` uses the builtin `JSON.parse` directly.  Both
are modelled by the executable parser `jsonParse`.  The model covers the
JSON fragment the checker emits (objects, arrays, strings with the common
escapes, integers with an optional fraction, booleans, null); exponent
notation is out of scope. -/

inductive JVal where
  | jnull
  | jbool (b : Bool)
  | jnum (n : Int)
  | jstr (s : String)
  | jarr (elems : List JVal)
  | jobj (fields : List (String × JVal))

def isJsonWs (c : Char) : Bool :=
  c = spaceC ∨ c = tabC ∨ c = nlC ∨ c = crC

def skipWs : List Char → List Char
  | [] => []
  | c :: rest => if isJsonWs c then skipWs rest else c :: rest

def hexDigitVal (c : Char) : Option Nat :=
  if c.isDigit then some (c.toNat - 48)
  else if 'a' ≤ c ∧ c ≤ 'f' then some (c.toNat - 87)
  else if 'A' ≤ c ∧ c ≤ 'F' then some (c.toNat - 55)
  else none

/-- Parse the body of a JSON string literal (the opening quote already
consumed); returns the decoded characters and the input after the
closing quote. -/
def parseStringLit : List Char → Option (List Char × List Char)
  | [] => none
  | c :: rest =>
    if c = quoteC then some ([], rest)
    else if c = backslashC then
      match rest with
      | [] => none
      | e :: rest2 =>
        if e = quoteC then (parseStringLit rest2).map (fun p => (quoteC :: p.1, p.2))
        else if e = backslashC then (parseStringLit rest2).map (fun p => (backslashC :: p.1, p.2))
        else if e = '/' then (parseStringLit rest2).map (fun p => ('/' :: p.1, p.2))
        else if e = 'b' then (parseStringLit rest2).map (fun p => (Char.ofNat 8 :: p.1, p.2))
        else if e = 'f' then (parseStringLit rest2).map (fun p => (Char.ofNat 12 :: p.1, p.2))
        else if e = 'n' then (parseStringLit rest2).map (fun p => (nlC :: p.1, p.2))
        else if e = 'r' then (parseStringLit rest2).map (fun p => (crC :: p.1, p.2))
        else if e = 't' then (parseStringLit rest2).map (fun p => (tabC :: p.1, p.2))
        else if e = 'u' then
          match rest2 with
          | h1 :: h2 :: h3 :: h4 :: rest6 =>
            match hexDigitVal h1, hexDigitVal h2, hexDigitVal h3, hexDigitVal h4 with
            | some a, some b, some c3, some d =>
              (parseStringLit rest6).map
                (fun p => (Char.ofNat (((a * 16 + b) * 16 + c3) * 16 + d) :: p.1, p.2))
            | _, _, _, _ => none
          | _ => none
        else none
    else (parseStringLit rest).map (fun p => (c :: p.1, p.2))

def digitsAux (acc : Nat) : List Char → Nat × List Char
  | [] => (acc, [])
  | c :: rest =>
    if c.isDigit then digitsAux (acc * 10 + (c.toNat - 48)) rest else (acc, c :: rest)

/-- Parse a JSON number; the value is its integer part (fraction digits
are consumed and discarded). -/
def parseNumberLit (cs : List Char) : Option (Int × List Char) :=
  let signed : Bool × List Char :=
    match cs with
    | c :: rest => if c = '-' then (true, rest) else (false, cs)
    | [] => (false, [])
  match signed.2 with
  | [] => none
  | c :: _ =>
    if c.isDigit then
      let p1 := digitsAux 0 signed.2
      let value : Int := if signed.1 then -(p1.1 : Int) else (p1.1 : Int)
      match p1.2 with
      | [] => some (value, [])
      | c2 :: r2 =>
        if c2 = '.' then
          match r2 with
          | [] => none
          | c3 :: _ =>
            if c3.isDigit then
              let p2 := digitsAux 0 r2
              some (value, p2.2)
            else none
        else some (value, p1.2)
    else none

/-- Parsing mode: a single value, the elements of an array, or the fields
of an object (`first` tells whether a closing bracket may come next). -/
inductive JTask where
  | val
  | elems (first : Bool)
  | fields (first : Bool)

inductive JRes where
  | rv (v : JVal)
  | rvs (vs : List JVal)
  | rfs (fs : List (String × JVal))

def jparse : Nat → JTask → List Char → Option (JRes × List Char)
  | 0, _, _ => none
  | f + 1, .val, cs =>
    match skipWs cs with
    | [] => none
    | c :: rest =>
      if c = quoteC then
        (parseStringLit rest).map (fun p => (.rv (.jstr ⟨p.1⟩), p.2))
      else if c = lbraceC then
        match jparse f (.fields true) rest with
        | some (.rfs fs, r) => some (.rv (.jobj fs), r)
        | _ => none
      else if c = '[' then
        match jparse f (.elems true) rest with
        | some (.rvs vs, r) => some (.rv (.jarr vs), r)
        | _ => none
      else if c = 't' then
        match rest with
        | 'r' :: 'u' :: 'e' :: r => some (.rv (.jbool true), r)
        | _ => none
      else if c = 'f' then
        match rest with
        | 'a' :: 'l' :: 's' :: 'e' :: r => some (.rv (.jbool false), r)
        | _ => none
      else if c = 'n' then
        match rest with
        | 'u' :: 'l' :: 'l' :: r => some (.rv .jnull, r)
        | _ => none
      else if c.isDigit ∨ c = '-' then
        (parseNumberLit (c :: rest)).map (fun p => (.rv (.jnum p.1), p.2))
      else none
  | f + 1, .elems first, cs =>
    match skipWs cs with
    | [] => none
    | c :: rest =>
      if first ∧ c = ']' then some (.rvs [], rest)
      else
        match jparse f .val (c :: rest) with
        | some (.rv v, r1) =>
          match skipWs r1 with
          | c2 :: r2 =>
            if c2 = ',' then
              match jparse f (.elems false) r2 with
              | some (.rvs vs, r3) => some (.rvs (v :: vs), r3)
              | _ => none
            else if c2 = ']' then some (.rvs [v], r2)
            else none
          | [] => none
        | _ => none
  | f + 1, .fields first, cs =>
    match skipWs cs with
    | [] => none
    | c :: rest =>
      if first ∧ c = rbraceC then some (.rfs [], rest)
      else if c = quoteC then
        match parseStringLit rest with
        | none => none
        | some (key, r1) =>
          match skipWs r1 with
          | ':' :: r2 =>
            match jparse f .val r2 with
            | some (.rv v, r3) =>
              match skipWs r3 with
              | c2 :: r4 =>
                if c2 = ',' then
                  match jparse f (.fields false) r4 with
                  | some (.rfs fs, r5) => some (.rfs ((⟨key⟩, v) :: fs), r5)
                  | _ => none
                else if c2 = rbraceC then some (.rfs [(⟨key⟩, v)], r4)
                else none
              | [] => none
            | _ => none
          | _ => none
      else none

/-- Model of `JSON.parse`: `some` on success, `none` where the builtin
throws `SyntaxError`. -/
def jsonParse (s : String) : Option JVal :=
  match jparse (s.toList.length + 2) .val s.toList with
  | some (.rv v, rest) => if skipWs rest = [] then some v else none
  | _ => none

/-! ## Lenient decoding of parsed JSON

TypeScript casts the parsed value to its interfaces without validation;
missing or wrongly-typed properties read as `undefined`.  Accordingly the
decoders read each field with a JS-like default. -/

def jlookup (fields : List (String × JVal)) (key : String) : Option JVal :=
  fields.foldl (fun acc e => if e.1 = key then some e.2 else acc) none

def getStrField (j : JVal) (key : String) : String :=
  match j with
  | .jobj fs =>
    match jlookup fs key with
    | some (.jstr s) => s
    | _ => ""
  | _ => ""

def getNumField (j : JVal) (key : String) : Option Int :=
  match j with
  | .jobj fs =>
    match jlookup fs key with
    | some (.jnum n) => some n
    | _ => none
  | _ => none

def getBoolField (j : JVal) (key : String) : Bool :=
  match j with
  | .jobj fs =>
    match jlookup fs key with
    | some (.jbool b) => b
    | _ => false
  | _ => false

def getArrField (j : JVal) (key : String) : Option (List JVal) :=
  match j with
  | .jobj fs =>
    match jlookup fs key with
    | some (.jarr xs) => some xs
    | _ => none
  | _ => none

def decodeViolation (j : JVal) : PksViolation :=
  { message := getStrField j "message"
    file := getStrField j "file"
    line := getNumField j "line"
    column := getNumField j "column"
    violation_type := getStrField j "violation_type"
    strict := getBoolField j "strict"
    constant_name := getStrField j "constant_name"
    referencing_pack_name := getStrField j "referencing_pack_name"
    defining_pack_name := getStrField j "defining_pack_name" }

def decodePksOutput (j : JVal) : PksOutput :=
  { status := getStrField j "status"
    violations := (getArrField j "violations").map (·.map decodeViolation)
    stale_violations := (getArrField j "stale_violations").map (·.map decodeViolation)
    strict_mode_violations :=
      (getArrField j "strict_mode_violations").map (·.map decodeViolation) }

/-- Modelled from the spec: `src/pks.ts` imports `parseOutput` from
`./outputParser`, a module whose source is not available here.  Per the
spec (§2, §4.4, §6) the checker's stdout is "expected JSON" decoded into
a `CheckResult`, and non-JSON input makes the decoding throw
`SyntaxError` (the only exception `JSON.parse` raises), which `Pks.parse`
catches.  `parseOutput` is therefore modelled as `JSON.parse` followed by
the lenient TypeScript-style field reads. -/
def parseOutput (output : String) : Option PksOutput :=
  (jsonParse output).map decodePksOutput

/-! ## Pks.parse (src/pks.ts lines 543-576)

```ts
private parse(output: string): PksOutput | null {
  if (output.length < 1) { ...log...; return null; }
  try {
    pksOutput = parseOutput(output);
  } catch (e) {
    if (e instanceof SyntaxError) {
      let regex = /[\r\n \t]/g;
      let message = output.replace(regex, ' ').substring(0, 500);
      let errorMessage = `Error on parsing output (It might non-JSON output) : "..."`;
      vscode.window.showWarningMessage(errorMessage);
      return null;
    }
  }
  return pksOutput;
}
```
The three observable outcomes are modelled explicitly: empty output,
parse failure (with the warning text shown to the user), and success.
`JSON.parse` only ever throws `SyntaxError`, so the fall-through branch
for other exception types is unreachable. -/

inductive ParseOutcome where
  | emptyOutput
  | parseFailure (warning : String)
  | ok (out : PksOutput)
deriving DecidableEq

/-- Model of `output.replace(/[\r\n \t]/g, ' ')`. -/
def collapseWhitespace (s : String) : String :=
  ⟨s.toList.map (fun c => if c = crC ∨ c = nlC ∨ c = spaceC ∨ c = tabC then spaceC else c)⟩

def parseWarningMessage (output : String) : String :=
  "Error on parsing output (It might non-JSON output) : " ++ "\"" ++
    jsTake (collapseWhitespace output) 500 ++ "\""

def pksParse (output : String) : ParseOutcome :=
  if output.toList.length < 1 then .emptyOutput
  else
    match parseOutput output with
    | some out => .ok out
    | none => .parseFailure (parseWarningMessage output)

/-! ## Validate output decoding (src/pksOutput.ts, executeValidate) -/

structure CycleEdge where
  from_pack : String
  to_pack : String
  file : String
deriving DecidableEq

structure ValidationError where
  error_type : String
  message : String
  cycle_edges : Option (List CycleEdge)
deriving DecidableEq

structure PksValidateOutput where
  status : String
  validation_errors : Option (List ValidationError)
deriving DecidableEq

def decodeCycleEdge (j : JVal) : CycleEdge :=
  { from_pack := getStrField j "from_pack"
    to_pack := getStrField j "to_pack"
    file := getStrField j "file" }

def decodeValidationError (j : JVal) : ValidationError :=
  { error_type := getStrField j "error_type"
    message := getStrField j "message"
    cycle_edges := (getArrField j "cycle_edges").map (·.map decodeCycleEdge) }

def decodeValidateOutput (j : JVal) : PksValidateOutput :=
  { status := getStrField j "status"
    validation_errors :=
      (getArrField j "validation_errors").map (·.map decodeValidationError) }

/-! ## The package.yml dependency scan (src/pks.ts lines 343-390)

`executeValidate` reads each cycle edge's `package.yml` and looks for the
line containing the dependency on `edge.to_pack`, tracking whether the
scan is inside the `dependencies:` block.  JS `\s` is modelled by the
ASCII whitespace characters. -/

def isJsWsChar (c : Char) : Bool :=
  c = spaceC ∨ c = tabC ∨ c = crC ∨ c = nlC ∨ c = Char.ofNat 11 ∨ c = Char.ofNat 12

/-- Model of the regex `^(\s*-\s*)["']?([^"'\s]+)["']?\s*$` applied to one
line; on a match returns the length of group 1 and the text of group 2. -/
def dependencyLineMatch (line : List Char) : Option (Nat × List Char) :=
  let p1 := line.span isJsWsChar
  match p1.2 with
  | [] => none
  | c :: r2 =>
    if c = '-' then
      let p2 := r2.span isJsWsChar
      let g1len := p1.1.length + 1 + p2.1.length
      let afterQuote :=
        match p2.2 with
        | c2 :: r4 => if c2 = quoteC ∨ c2 = aposC then r4 else p2.2
        | [] => p2.2
      let p3 := afterQuote.span (fun c2 => ¬(c2 = quoteC ∨ c2 = aposC ∨ isJsWsChar c2 = true))
      if p3.1 = [] then none
      else
        let afterClose :=
          match p3.2 with
          | c3 :: r6 => if c3 = quoteC ∨ c3 = aposC then r6 else p3.2
          | [] => p3.2
        if (afterClose.span isJsWsChar).2 = [] then some (g1len, p3.1) else none
    else none

def isDependenciesHeader (line : List Char) : Bool :=
  "dependencies:".toList.isPrefixOf line

/-- Model of `/^[^\s-]/.test(line)`. -/
def startsNonDependency (line : List Char) : Bool :=
  match line with
  | [] => false
  | c :: _ => ¬(isJsWsChar c = true ∨ c = '-')

/-- The line scan of `executeValidate` (lines 352-380): find the first
dependency line for `toPack` inside a `dependencies:` block, returning
`(lineNum, startChar, endChar)`. -/
def findDependencyLine : List (List Char) → List Char → Nat → Bool →
    Option (Nat × Nat × Nat)
  | [], _, _, _ => none
  | line :: rest, toPack, lineNum, inDeps =>
    if isDependenciesHeader line then
      findDependencyLine rest toPack (lineNum + 1) true
    else
      let inDeps2 := if inDeps ∧ startsNonDependency line then false else inDeps
      if inDeps2 then
        match dependencyLineMatch line with
        | some (g1len, g2) =>
          if g2 = toPack then some (lineNum, g1len, g1len + g2.length)
          else findDependencyLine rest toPack (lineNum + 1) inDeps2
        | none => findDependencyLine rest toPack (lineNum + 1) inDeps2
      else findDependencyLine rest toPack (lineNum + 1) inDeps2

/-- One cycle diagnostic (src/pks.ts lines 387-404). -/
def cycleDiagnostic (edge : CycleEdge) (foundLine startChar endChar : Nat) :
    VsDiagnostic :=
  { range :=
      { startLine := (foundLine : Int), startCol := (startChar : Int)
        endLine := (foundLine : Int), endCol := (endChar : Int) }
    message := "Dependency cycle: " ++ edge.from_pack ++ " -> " ++ edge.to_pack
    severity := .error
    source := "pks-validate"
    pksMeta := none
    pksCycleMeta := some { from_pack := edge.from_pack, to_pack := edge.to_pack } }

/-- The per-file grouping built by `executeValidate` (lines 333-412);
`fsRead` models `fs.readFileSync` (`none` where it would throw). -/
def validateByFile (cwd : String) (fsRead : String → Option String)
    (errs : List ValidationError) : List (String × List VsDiagnostic) :=
  errs.foldl (fun acc ve =>
    if ve.error_type = "cycle" then
      match ve.cycle_edges with
      | some edges =>
        edges.foldl (fun acc2 edge =>
          let filePath := mkFileUri cwd edge.file
          match fsRead filePath with
          | none => acc2
          | some content =>
            match findDependencyLine (content.toList.splitOn nlC)
                edge.to_pack.toList 0 false with
            | none => acc2
            | some (ln, sc, ec) =>
              addToGroup acc2 filePath (cycleDiagnostic edge ln sc ec)) acc
      | none => acc
    else acc) []

/-- The validate-diagnostics update of `executeValidate`'s `onDidExec`
(lines 307-422): clear first, then bail out on empty output, JSON error,
or no validation errors, else set the grouped entries. -/
def validateUpdate (cwd stdout : String) (fsRead : String → Option String)
    (d : DiagMap) : DiagMap :=
  let d1 := d.clear
  if stdout.toList.length < 1 then d1
  else
    match jsonParse stdout with
    | none => d1
    | some j =>
      match (decodeValidateOutput j).validation_errors with
      | none => d1
      | some errs => if errs.length = 0 then d1 else d1.setEntries (validateByFile cwd fsRead errs)

/-! ## The child-process completion callbacks

Each run wraps its work in a `Task` whose body spawns `cp.exec` with a
callback of the shape

```ts
(error, stdout, stderr) => {
  try {
    if (token.isCanceled) { return; }
    onDidExec(error, stdout, stderr);
    if (onComplete) { onComplete(); }
  } catch (e) { ...log... } finally { token.finished(); }
}
```
(src/pks.ts lines 183-197, 269-284, 427-442, 494-508).  The shared
mutable state the callbacks may touch is collected in `SharedState`; the
returned `Bool` records that `token.finished()` ran. -/

structure SharedState where
  diag : DiagMap
  validateDiag : DiagMap
  highlightDelivered : List (List VsRange × List VsDiagnostic)

/-- Completion callback of the single-file `execute` run. -/
def executeCallback (isCanceled : Bool) (uri stdout : String)
    (s : SharedState) : SharedState × Bool :=
  if isCanceled then (s, true)
  else
    match pksParse stdout with
    | .ok out => ({ s with diag := executeUpdate uri out s.diag }, true)
    | _ => (s, true)

/-- Completion callback of the whole-workspace `executeAll` run. -/
def executeAllCallback (isCanceled : Bool) (cwd stdout : String)
    (s : SharedState) : SharedState × Bool :=
  if isCanceled then (s, true)
  else
    match pksParse stdout with
    | .ok out => ({ s with diag := executeAllUpdate out cwd s.diag }, true)
    | _ => (s, true)

/-- Completion callback of the `executeValidate` run. -/
def validateCallback (isCanceled : Bool) (cwd stdout : String)
    (fsRead : String → Option String) (s : SharedState) : SharedState × Bool :=
  if isCanceled then (s, true)
  else ({ s with validateDiag := validateUpdate cwd stdout fsRead s.validateDiag }, true)

/-- Completion callback of the `executeHighlights` run; results are
delivered through `onResults` rather than the diagnostic collection. -/
def highlightCallback (isCanceled : Bool) (stdout : String)
    (s : SharedState) : SharedState × Bool :=
  if isCanceled then (s, true)
  else
    match pksParse stdout with
    | .ok out =>
      ({ s with highlightDelivered := s.highlightDelivered ++ [highlightResults out] }, true)
    | _ => ({ s with highlightDelivered := s.highlightDelivered ++ [([], [])] }, true)

/-! ## Task and TaskQueue (src/taskQueue.ts)

The extension runs on the single-threaded JS event loop, so the queue is
modelled as a state machine driven by three kinds of macrotask events:

* `enq id uri` — a call to `TaskQueue.enqueue` with a freshly constructed
  `Task` (the task object is identified by `id`; a repeated id models
  re-enqueueing the same object, which throws before mutating anything);
* `cancelEvt uri` — a call to `TaskQueue.cancel(uri)` (e.g. from
  `Pks.clear`);
* `complete id` — the `cp.exec` completion callback of task `id`'s child
  process firing (it calls `token.finished()`, and runs the result
  handler only when `token.isCanceled` is false).

Within one event, promise-resolution continuations (the `await` in
`kick`'s loop) are microtasks and run before the next macrotask, so each
event function finishes by draining them (`drain`).

Per-task state: `phase` tracks the run promise — `queued` before `run()`
is called, `running` while the promise is pending with the body started,
`settled` once resolved.  `cancel()` on a running task resolves the
promise immediately (`resolveOnce`), on a queued task only marks it (the
later `run()` then resolves immediately without invoking the body). -/

inductive Phase where
  | queued
  | running
  | settled
deriving DecidableEq

structure TaskInfo where
  uri : String
  canceled : Bool
  phase : Phase
  bodyStarted : Bool
  procDone : Bool
  completedNormally : Bool
deriving DecidableEq

structure QState where
  queue : List Nat
  tasks : Nat → Option TaskInfo
  busy : Bool
  awaiting : Option Nat

def initQState : QState :=
  { queue := [], tasks := fun _ => none, busy := false, awaiting := none }

def setTask (s : QState) (id : Nat) (info : TaskInfo) : QState :=
  { s with tasks := fun j => if j = id then some info else s.tasks j }

/-! ### Task.cancel (src/taskQueue.ts lines 52-61)

```ts
public cancel(): void {
  if (this.isCanceled) { return; }
  this.isCanceled = true;
  if (this.onCancel) { this.onCancel(); }
  this.resolveOnce();
}
```
`onCancel` kills the child process (no queue-state effect); `resolveOnce`
resolves the run promise only if `run()` created it and it is still
pending, i.e. only in phase `running`. -/

def taskCancel (s : QState) (id : Nat) : QState :=
  match s.tasks id with
  | none => s
  | some info =>
    if info.canceled then s
    else
      setTask s id
        { info with
          canceled := true
          phase := if info.phase = .running then .settled else info.phase }

/-! ### TaskQueue.cancel (src/taskQueue.ts lines 101-109)

Cancels every task in the queue whose uri matches; removal happens only
through the processing loop. -/

def cancelUri (s : QState) (uri : String) : QState :=
  s.queue.foldl
    (fun acc id =>
      match acc.tasks id with
      | some info => if info.uri = uri then taskCancel acc id else acc
      | none => acc)
    s

/-! ### The processing loop (TaskQueue.kick, src/taskQueue.ts lines 111-135)

`loopRun s l` is the loop body running over the current queue `l`:
peek the head; a head whose `run()` resolves immediately (canceled before
running) is shifted and the loop continues; an idle head is started
(body invoked, `await` suspends, so the loop stops with `awaiting` set);
an already-settled head is shifted; an empty queue stops the loop and
clears `busy`. -/

def loopRun : QState → List Nat → QState
  | s, [] => { s with queue := [], busy := false, awaiting := none }
  | s, id :: rest =>
    match s.tasks id with
    | none => loopRun s rest
    | some info =>
      match info.phase with
      | .queued =>
        if info.canceled then
          loopRun (setTask s id { info with phase := .settled }) rest
        else
          setTask { s with queue := id :: rest, awaiting := some id } id
            { info with phase := .running, bodyStarted := true }
      | .running => { s with queue := id :: rest, awaiting := some id }
      | .settled => loopRun s rest

/-- `kick()` (lines 111-117): re-entrant calls while busy are no-ops;
otherwise mark busy and run the loop over the current queue. -/
def kick (s : QState) : QState :=
  if s.busy then s else loopRun { s with busy := true } s.queue

/-- The pending microtask at the end of an event: if the loop is awaiting
a task whose run promise has settled, the `await` resumes — the head is
shifted (`this.tasks.shift()`) and the loop continues. -/
def drain (s : QState) : QState :=
  match s.awaiting with
  | none => s
  | some id =>
    match s.tasks id with
    | some info =>
      if info.phase = .settled then
        loopRun { s with awaiting := none } (s.queue.drop 1)
      else s
    | none => s

inductive QEvent where
  | enq (id : Nat) (uri : String)
  | cancelEvt (uri : String)
  | complete (id : Nat)

/-! ### TaskQueue.enqueue (src/taskQueue.ts lines 89-99)

```ts
public enqueue(task: Task): void {
  if (task.isEnqueued) { throw new Error(...); }
  this.cancel(task.uri);
  task.isEnqueued = true;
  this.tasks.push(task);
  this.kick();
}
```
The throw happens before any mutation, so re-enqueueing leaves the state
unchanged.  `cancel` may resolve the running task's promise; the loop's
continuation is a microtask that runs after `push`/`kick`, hence the
final `drain`. -/

def applyEvent (s : QState) (e : QEvent) : QState :=
  match e with
  | .enq id uri =>
    match s.tasks id with
    | some _ => s
    | none =>
      let s1 := cancelUri s uri
      let s2 :=
        { s1 with
          queue := s1.queue ++ [id]
          tasks := fun j =>
            if j = id then
              some { uri := uri, canceled := false, phase := .queued
                     bodyStarted := false, procDone := false
                     completedNormally := false }
            else s1.tasks j }
      drain (kick s2)
  | .cancelEvt uri => drain (cancelUri s uri)
  | .complete id =>
    match s.tasks id with
    | none => s
    | some info =>
      if info.bodyStarted ∧ ¬info.procDone then
        if info.canceled then
          drain (setTask s id
            { info with
              procDone := true
              phase := if info.phase = .running then .settled else info.phase })
        else
          drain (setTask s id
            { info with
              procDone := true
              completedNormally := true
              phase := if info.phase = .running then .settled else info.phase })
      else s

def runEvents (es : List QEvent) : QState :=
  es.foldl applyEvent initQState

/-! ## Definitions supporting the queue theorems -/

/-- Relation between a task's info before and after one `loopRun` pass:
unchanged, resolved-immediately (canceled before running), or started. -/
def loopStep (a b : TaskInfo) : Prop :=
  b = a ∨
  (a.phase = .queued ∧ a.canceled = true ∧ b = { a with phase := .settled }) ∨
  (a.phase = .queued ∧ a.canceled = false ∧
    b = { a with phase := .running, bodyStarted := true })

/-- Relation between a task's info before and after `cancelUri u`:
unchanged, or newly canceled (resolving the promise if running). -/
def cancelStep (u : String) (a b : TaskInfo) : Prop :=
  b = a ∨
  (a.uri = u ∧ a.canceled = false ∧
    b = { a with canceled := true
                 phase := if a.phase = .running then .settled else a.phase })

/-- Lift a relation on task infos to optional infos (no task is created
or destroyed). -/
def optionStep (rel : TaskInfo → TaskInfo → Prop) :
    Option TaskInfo → Option TaskInfo → Prop
  | none, none => True
  | some a, some b => rel a b
  | _, _ => False

/-- Relation between two queue positions: tasks with equal uris may not
both be non-canceled — the earlier one must already be canceled. -/
def uriCancelOK (s : QState) (a b : Nat) : Prop :=
  ∀ ia ib, s.tasks a = some ia → s.tasks b = some ib →
    ia.uri = ib.uri → ia.canceled = true

/-- The reachable-state invariant of the task queue. -/
structure QInv (s : QState) : Prop where
  awaitHead : ∀ id, s.awaiting = some id → s.queue.head? = some id
  runningAwaited : ∀ id info, s.tasks id = some info → info.phase = .running →
    s.awaiting = some id
  awaitedRunning : ∀ id, s.awaiting = some id →
    ∃ info, s.tasks id = some info ∧ info.phase = .running
  notBusyIdle : s.busy = false → s.awaiting = none ∧ s.queue = []
  busyAwaiting : s.busy = true → s.awaiting.isSome
  queueTasks : ∀ id, id ∈ s.queue → (s.tasks id).isSome
  nodup : s.queue.Nodup
  tailQueued : ∀ id info, id ∈ s.queue.drop 1 → s.tasks id = some info →
    info.phase = .queued
  bodyStartedNotQueued : ∀ id info, s.tasks id = some info →
    info.bodyStarted = true → info.phase ≠ .queued
  settledResolved : ∀ id info, s.tasks id = some info → info.phase = .settled →
    info.canceled = true ∨ info.procDone = true
  runningNotCanceled : ∀ id info, s.tasks id = some info →
    info.phase = .running → info.canceled = false
  settledNotQueued : ∀ id info, s.tasks id = some info → info.phase = .settled →
    id ∉ s.queue
  pairwiseUri : s.queue.Pairwise (uriCancelOK s)

/-- Number of queued-or-running tasks for `u` that are not canceled. -/
def nonCanceledCount (s : QState) (u : String) : Nat :=
  (s.queue.filter (fun id =>
    match s.tasks id with
    | some info => info.uri = u && !info.canceled
    | none => false)).length

/-- A consecutive run of `enqueue` calls sharing one uri. -/
def enqBlock (ids : List Nat) (u : String) : List QEvent :=
  ids.map (fun i => QEvent.enq i u)

/-! ## Concrete sample inputs used by witnesses and counterexamples -/

/-- The violation of spec §8's reconciliation test: line 5, column 10,
constant `::Foo::Bar`. -/
def c7Violation : PksViolation :=
  { message := "sample"
    file := "packs/a/app/models/a.rb"
    line := some 5
    column := some 10
    violation_type := "dependency"
    strict := false
    constant_name := "::Foo::Bar"
    referencing_pack_name := "packs/a"
    defining_pack_name := "packs/b" }

def c7Output : PksOutput :=
  { status := "error"
    violations := some [c7Violation]
    stale_violations := none
    strict_mode_violations := none }

/-- An output whose only violation sits in the stale bucket. -/
def staleOnlyOutput : PksOutput :=
  { status := "error"
    violations := some []
    stale_violations := some [c7Violation]
    strict_mode_violations := none }

/-- A violation with no location information. -/
def noLocationViolation : PksViolation :=
  { message := "file-level"
    file := "packs/a/app/models/a.rb"
    line := none
    column := none
    violation_type := "privacy"
    strict := false
    constant_name := "::Baz"
    referencing_pack_name := "packs/a"
    defining_pack_name := "packs/b" }

def mixedLocationOutput : PksOutput :=
  { status := "error"
    violations := some [noLocationViolation, c7Violation]
    stale_violations := none
    strict_mode_violations := none }

def emptyOkOutput : PksOutput :=
  { status := "ok"
    violations := some []
    stale_violations := none
    strict_mode_violations := none }

def invalidOnlyOutput : PksOutput :=
  { status := "error"
    violations := some [noLocationViolation]
    stale_violations := none
    strict_mode_violations := none }

/-! # Lemmas and claim theorems -/

/-! ## String-primitive lemmas -/

theorem jsEndsWith_iff (s suffixStr : String) :
    jsEndsWith s suffixStr = true ↔ suffixStr.toList <:+ s.toList := by
  simp [jsEndsWith, List.isSuffixOf_iff_suffix]

theorem getBaseExecutable_append (exe : String)
    (h : jsEndsWith exe " check" = true) :
    getBaseExecutable exe ++ " check" = exe := by
  obtain ⟨t, ht⟩ := (jsEndsWith_iff exe " check").mp h
  have h6 : (" check".toList).length = 6 := rfl
  apply String.ext
  rw [String.data_append]
  show (getBaseExecutable exe).toList ++ " check".toList = exe.toList
  rw [getBaseExecutable, if_pos h]
  show (exe.toList.take (exe.toList.length - 6)) ++ " check".toList = exe.toList
  rw [← ht, List.length_append, h6]
  have hn : t.length + 6 - 6 = t.length := by omega
  rw [hn, List.take_left]

theorem getBaseExecutable_no_suffix (exe : String)
    (h : jsEndsWith exe " check" = false) :
    getBaseExecutable exe = exe := by
  simp [getBaseExecutable, h]

theorem findIdx_newline_append (pre post : List Char) (h : nlC ∉ pre) :
    (pre ++ nlC :: post).findIdx? (· == nlC) = some pre.length := by
  have hpre : pre.findIdx? (· == nlC) = none := by
    rw [List.findIdx?_eq_none_iff]
    intro x hx
    exact beq_eq_false_iff_ne.mpr (fun hxe => h (hxe ▸ hx))
  rw [List.findIdx?_append, hpre, Option.none_or, List.findIdx?_cons]
  simp

theorem cleanList_no_newline (l : List Char) (h : nlC ∉ l) :
    cleanList l = l := by
  have hnone : l.findIdx? (· == nlC) = none := by
    rw [List.findIdx?_eq_none_iff]
    intro x hx
    exact beq_eq_false_iff_ne.mpr (fun hxe => h (hxe ▸ hx))
  unfold cleanList
  rw [hnone]

theorem cleanList_append (pre post : List Char) (h : nlC ∉ pre) :
    cleanList (pre ++ nlC :: post) = post := by
  unfold cleanList
  rw [findIdx_newline_append pre post h]
  show (pre ++ nlC :: post).drop (pre.length + 1) = post
  rw [show pre ++ nlC :: post = (pre ++ [nlC]) ++ post by simp]
  exact List.drop_left' (by simp)

/-! ## C9: base executable derivation -/

/-- C9: the base executable used for validate and list-definitions is the
configured executable with a trailing " check" (its last 6 characters)
removed exactly when the executable ends with " check"; otherwise the
configured executable is used unchanged. -/
theorem claim_C9 (exe : String) :
    (jsEndsWith exe " check" = true → getBaseExecutable exe ++ " check" = exe) ∧
    (jsEndsWith exe " check" = false → getBaseExecutable exe = exe) :=
  ⟨getBaseExecutable_append exe, getBaseExecutable_no_suffix exe⟩

theorem claim_C9_witness :
    (jsEndsWith "pks check" " check" = true ∧
      getBaseExecutable "pks check" ++ " check" = "pks check") ∧
    (jsEndsWith "packwerk" " check" = false ∧
      getBaseExecutable "packwerk" = "packwerk") :=
  ⟨⟨by decide, (claim_C9 "pks check").1 (by decide)⟩,
   ⟨by decide, (claim_C9 "packwerk").2 (by decide)⟩⟩

/-! ## C10: message cleaning -/

/-- C10: every diagnostic's message is the originating violation's message
with everything up to and including the first newline removed; a message
with no newline is used unchanged. -/
theorem claim_C10 :
    (∀ v : PksViolation, (createDiagnostic v).message = cleanMessage v.message) ∧
    (∀ v : PksViolation, (highlightDiagnostic v).message = cleanMessage v.message) ∧
    (∀ pre post : String, nlC ∉ pre.toList →
      cleanMessage (pre ++ "\n" ++ post) = post) ∧
    (∀ m : String, nlC ∉ m.toList → cleanMessage m = m) := by
  refine ⟨fun v => rfl, fun v => rfl, ?_, ?_⟩
  · intro pre post h
    apply String.ext
    show cleanList (pre ++ "\n" ++ post).data = post.data
    have hdata : (pre ++ "\n" ++ post).data = pre.data ++ nlC :: post.data := by
      rw [String.data_append, String.data_append]
      have : ("\n" : String).data = [nlC] := by decide
      rw [this]
      simp
    rw [hdata]
    exact cleanList_append _ _ h
  · intro m h
    apply String.ext
    show cleanList m.data = m.data
    exact cleanList_no_newline _ h

theorem claim_C10_witness :
    (nlC ∉ ("app/models/a.rb:5:10" : String).toList ∧
      cleanMessage ("app/models/a.rb:5:10" ++ "\n" ++ "Privacy violation of ::Foo") =
        "Privacy violation of ::Foo") ∧
    (nlC ∉ ("no newline here" : String).toList ∧
      cleanMessage "no newline here" = "no newline here") :=
  ⟨⟨by decide, claim_C10.2.2.1 "app/models/a.rb:5:10" "Privacy violation of ::Foo" (by decide)⟩,
   ⟨by decide, claim_C10.2.2.2 "no newline here" (by decide)⟩⟩

/-! ## C4: canceled tasks never touch shared diagnostic state -/

/-- C4: a canceled task never mutates the shared diagnostic state — in
every run (single-file, whole-workspace, validate, highlight) the
child-process completion callback checks the token's `isCanceled` flag
and returns before the result-handling path, still calling `finished()`
in its `finally` block. -/
theorem claim_C4 :
    (∀ uri stdout s, executeCallback true uri stdout s = (s, true)) ∧
    (∀ cwd stdout s, executeAllCallback true cwd stdout s = (s, true)) ∧
    (∀ cwd stdout fsRead s, validateCallback true cwd stdout fsRead s = (s, true)) ∧
    (∀ stdout s, highlightCallback true stdout s = (s, true)) :=
  ⟨fun _ _ _ => rfl, fun _ _ _ => rfl, fun _ _ _ _ => rfl, fun _ _ => rfl⟩

/-! ## C3: replace-wholesale vs replace-single-file -/

/-- C3: a whole-workspace run replaces the entire diagnostic collection
wholesale (its result is independent of the previous collection), while a
single-file run replaces exactly that file's entries and leaves every
other uri unchanged; consequently, after a later whole-workspace run with
no displayable violations, every file — including one flagged by an
earlier run — has zero diagnostics. -/
theorem claim_C3 :
    (∀ out cwd d d', executeAllUpdate out cwd d = executeAllUpdate out cwd d') ∧
    (∀ uri out d u, u ≠ uri → executeUpdate uri out d u = d u) ∧
    (∀ uri out d, executeUpdate uri out d uri = executeDiagnostics out) ∧
    (∀ out cwd d u, allValidViolations out = [] →
      executeAllUpdate out cwd d u = []) ∧
    (∀ outA outB cwd d x, allValidViolations outB = [] →
      executeAllUpdate outB cwd (executeAllUpdate outA cwd d) x = []) := by
  have h4 : ∀ out cwd (d : DiagMap) u, allValidViolations out = [] →
      executeAllUpdate out cwd d u = [] := by
    intro out cwd d u h
    simp [executeAllUpdate, executeAllEntries, groupByFile, h,
      DiagMap.setEntries, DiagMap.clear]
  refine ⟨fun out cwd d d' => rfl, ?_, ?_, h4, ?_⟩
  · intro uri out d u hne
    simp [executeUpdate, DiagMap.setUri, DiagMap.deleteUri, hne]
  · intro uri out d
    simp [executeUpdate, DiagMap.setUri]
  · intro outA outB cwd d x h
    exact h4 outB cwd _ x h

theorem claim_C3_witness :
    (("/w/packs/b/b.rb" : String) ≠ "/w/packs/a/a.rb" ∧
      executeUpdate "/w/packs/a/a.rb" c7Output (fun _ => []) "/w/packs/b/b.rb" =
        (fun _ => ([] : List VsDiagnostic)) "/w/packs/b/b.rb") ∧
    (allValidViolations emptyOkOutput = [] ∧
      executeAllUpdate emptyOkOutput "/w"
        (executeAllUpdate c7Output "/w" (fun _ => []))
        (mkFileUri "/w" c7Violation.file) = []) :=
  ⟨⟨by decide, claim_C3.2.1 "/w/packs/a/a.rb" c7Output (fun _ => [])
      "/w/packs/b/b.rb" (by decide)⟩,
   ⟨by decide, claim_C3.2.2.2.2 c7Output emptyOkOutput "/w" (fun _ => [])
      (mkFileUri "/w" c7Violation.file) (by decide)⟩⟩

/-! ## C7: the reconciliation of one located violation -/

/-- C7: for a check result with exactly one violation at line 5, column
10 and constant name `::Foo::Bar`, the reconciler produces exactly one
diagnostic on line index 4, starting at column 10 and ending at column
10 plus the length of `::Foo::Bar`, tagged with source `pks` and carrying
the violation metadata (violation type, constant name, referencing and
defining pack names). -/
theorem claim_C7 :
    executeDiagnostics c7Output =
      [{ range :=
           { startLine := 4
             startCol := 10
             endLine := 4
             endCol := 10 + (("::Foo::Bar" : String).toList.length : Int) }
         message := cleanMessage c7Violation.message
         severity := .error
         source := "pks"
         pksMeta := some
           { file := c7Violation.file
             violation_type := "dependency"
             constant_name := "::Foo::Bar"
             referencing_pack_name := "packs/a"
             defining_pack_name := "packs/b" }
         pksCycleMeta := none }] := by
  decide

/-! ## C8: invalid locations are dropped, valid ones survive -/

/-- C8: violations whose line or column is not a number are excluded from
the produced diagnostics without any error, and every violation with a
valid location is still turned into a diagnostic; the number of
diagnostics equals the number of violations with valid locations. -/
theorem claim_C8 :
    (∀ out v, v ∈ combinedViolations out → hasValidLocation v = true →
      createDiagnostic v ∈ executeDiagnostics out) ∧
    (∀ out, (∀ v ∈ combinedViolations out, hasValidLocation v = false) →
      executeDiagnostics out = []) ∧
    (∀ out, (executeDiagnostics out).length =
      ((combinedViolations out).filter hasValidLocation).length) := by
  refine ⟨?_, ?_, ?_⟩
  · intro out v hmem hvalid
    exact List.mem_map_of_mem createDiagnostic
      (List.mem_filter.mpr ⟨hmem, hvalid⟩)
  · intro out h
    have : allValidViolations out = [] := by
      simp only [allValidViolations, List.filter_eq_nil_iff]
      intro v hv
      simp [h v hv]
    simp [executeDiagnostics, this]
  · intro out
    simp [executeDiagnostics, allValidViolations]

theorem claim_C8_witness :
    (c7Violation ∈ combinedViolations mixedLocationOutput ∧
      hasValidLocation c7Violation = true ∧
      createDiagnostic c7Violation ∈ executeDiagnostics mixedLocationOutput) ∧
    ((∀ v ∈ combinedViolations invalidOnlyOutput, hasValidLocation v = false) ∧
      executeDiagnostics invalidOnlyOutput = []) :=
  ⟨⟨by decide, by decide,
     claim_C8.1 mixedLocationOutput c7Violation (by decide) (by decide)⟩,
   ⟨by decide, claim_C8.2.1 invalidOnlyOutput (by decide)⟩⟩

/-! ## C6: the three parse outcomes -/

/-- C6: the output-parsing step is total and distinguishes three cases —
the empty string yields the no-output result rather than an exception,
a non-empty string that is not valid JSON yields the parse-failure result
carrying the truncated, whitespace-collapsed warning, and the valid JSON
object with status ok and an empty violations array yields a check result
with an empty violation list. -/
theorem claim_C6 :
    (∀ s : String, s = "" → pksParse s = .emptyOutput) ∧
    (∀ s : String, s ≠ "" → parseOutput s = none →
      pksParse s = .parseFailure (parseWarningMessage s)) ∧
    pksParse "" = .emptyOutput ∧
    pksParse "\x7bnot json" = .parseFailure (parseWarningMessage "\x7bnot json") ∧
    pksParse "\x7b\"status\":\"ok\",\"violations\":[]\x7d" =
      .ok { status := "ok", violations := some [], stale_violations := none,
            strict_mode_violations := none } := by
  refine ⟨?_, ?_, by decide, by decide, by decide⟩
  · intro s hs
    subst hs
    decide
  · intro s hne hnone
    have hlen : ¬ s.toList.length < 1 := by
      intro hlt
      apply hne
      apply String.ext
      have : s.toList = [] := List.eq_nil_of_length_eq_zero (by omega)
      exact this
    have hlen2 : s.length ≠ 0 := by
      have hsame : s.toList.length = s.length := rfl
      omega
    simp [pksParse, hlen, hlen2, hnone]

theorem claim_C6_witness :
    (("" : String) = "" ∧ pksParse "" = .emptyOutput) ∧
    (("x" : String) ≠ "" ∧ parseOutput "x" = none ∧
      pksParse "x" = .parseFailure (parseWarningMessage "x")) :=
  ⟨⟨rfl, claim_C6.1 "" rfl⟩,
   ⟨by decide, by decide, claim_C6.2.1 "x" (by decide) (by decide)⟩⟩

/-! ## C5: the bucket-merge policy -/

theorem addToGroup_mem_new (groups : List (String × List VsDiagnostic))
    (key : String) (d : VsDiagnostic) :
    ∃ e ∈ addToGroup groups key d, e.1 = key ∧ d ∈ e.2 := by
  induction groups with
  | nil => exact ⟨(key, [d]), by simp [addToGroup]⟩
  | cons g rest ih =>
    obtain ⟨k, ds⟩ := g
    by_cases hk : k = key
    · subst hk
      exact ⟨(k, ds ++ [d]), by simp [addToGroup]⟩
    · obtain ⟨e, he, hkey, hd⟩ := ih
      exact ⟨e, by simp [addToGroup, hk, he], hkey, hd⟩

theorem addToGroup_mem_old (groups : List (String × List VsDiagnostic))
    (key : String) (d : VsDiagnostic) (e0 : String × List VsDiagnostic)
    (h : e0 ∈ groups) :
    ∃ e ∈ addToGroup groups key d, e.1 = e0.1 ∧ ∀ x ∈ e0.2, x ∈ e.2 := by
  induction groups with
  | nil => cases h
  | cons g rest ih =>
    obtain ⟨k, ds⟩ := g
    rcases List.mem_cons.mp h with heq | hmem
    · by_cases hk : k = key
      · subst hk
        refine ⟨(k, ds ++ [d]), by simp [addToGroup], by rw [heq], ?_⟩
        intro x hx
        rw [heq] at hx
        exact List.mem_append_left _ hx
      · refine ⟨(k, ds), by simp [addToGroup, hk], by rw [heq], ?_⟩
        intro x hx
        rw [heq] at hx
        exact hx
    · by_cases hk : k = key
      · subst hk
        refine ⟨e0, ?_, rfl, fun x hx => hx⟩
        rw [show addToGroup ((k, ds) :: rest) k d = (k, ds ++ [d]) :: rest by
          simp [addToGroup]]
        exact List.mem_cons_of_mem _ hmem
      · obtain ⟨e, he, hkey, hsub⟩ := ih hmem
        refine ⟨e, ?_, hkey, hsub⟩
        rw [show addToGroup ((k, ds) :: rest) key d =
            (k, ds) :: addToGroup rest key d by simp [addToGroup, hk]]
        exact List.mem_cons_of_mem _ he

theorem groupFold_mem (vs : List PksViolation)
    (groups : List (String × List VsDiagnostic)) (v : PksViolation)
    (h : (∃ e ∈ groups, e.1 = v.file ∧ createDiagnostic v ∈ e.2) ∨ v ∈ vs) :
    ∃ e ∈ vs.foldl (fun g v' => addToGroup g v'.file (createDiagnostic v')) groups,
      e.1 = v.file ∧ createDiagnostic v ∈ e.2 := by
  induction vs generalizing groups with
  | nil =>
    rcases h with h | h
    · exact h
    · cases h
  | cons v' rest ih =>
    rw [List.foldl_cons]
    rcases h with ⟨e0, he0, hkey, hd⟩ | h
    · apply ih
      left
      obtain ⟨e, he, hkey2, hsub⟩ :=
        addToGroup_mem_old groups v'.file (createDiagnostic v') e0 he0
      exact ⟨e, he, hkey2.trans hkey, hsub _ hd⟩
    · rcases List.mem_cons.mp h with heq | hmem
      · subst heq
        apply ih
        left
        obtain ⟨e, he, hkey, hd⟩ :=
          addToGroup_mem_new groups v.file (createDiagnostic v)
        exact ⟨e, he, hkey, hd⟩
      · exact ih _ (Or.inr hmem)

theorem groupByFile_mem (vs : List PksViolation) (v : PksViolation) (h : v ∈ vs) :
    ∃ e ∈ groupByFile vs, e.1 = v.file ∧ createDiagnostic v ∈ e.2 :=
  groupFold_mem vs [] v (Or.inr h)

/-- C5 counterexample: with an empty new-violations bucket and one stale
violation, the single-file path — which is not the "show all" highlight
mode — still produces that stale violation's diagnostic, so the produced
diagnostics do not come from the new-violations bucket alone. -/
theorem claim_C5_counterexample :
    staleOnlyOutput.violations = some [] ∧
    executeDiagnostics staleOnlyOutput = [createDiagnostic c7Violation] := by
  constructor
  · rfl
  · decide

/-- C5 (amended): every code path — single-file, whole-workspace, and the
"show all" highlight mode alike — merges the three violation buckets
(new, stale, strict-mode); a located violation from any bucket appears in
the single-file diagnostics, in the whole-workspace per-file entries, and
in the highlight results.  (The modes differ only in the command-line
flags passed to the checker, not in the merge policy.) -/
theorem claim_C5 (out : PksOutput) (v : PksViolation)
    (hmem : v ∈ out.violations.getD [] ∨ v ∈ out.stale_violations.getD [] ∨
      v ∈ out.strict_mode_violations.getD [])
    (hvalid : hasValidLocation v = true) :
    createDiagnostic v ∈ executeDiagnostics out ∧
    highlightDiagnostic v ∈ (highlightResults out).2 ∧
    ∀ cwd, ∃ e ∈ executeAllEntries out cwd,
      e.1 = mkFileUri cwd v.file ∧ createDiagnostic v ∈ e.2 := by
  have hcomb : v ∈ combinedViolations out := by
    rcases hmem with h | h | h
    · exact List.mem_append_left _ (List.mem_append_left _ h)
    · exact List.mem_append_left _ (List.mem_append_right _ h)
    · exact List.mem_append_right _ h
  have hall : v ∈ allValidViolations out :=
    List.mem_filter.mpr ⟨hcomb, hvalid⟩
  refine ⟨List.mem_map_of_mem createDiagnostic hall,
    List.mem_map_of_mem highlightDiagnostic hall, ?_⟩
  intro cwd
  obtain ⟨e, he, hkey, hd⟩ := groupByFile_mem (allValidViolations out) v hall
  refine ⟨(mkFileUri cwd e.1, e.2), ?_, by rw [hkey], hd⟩
  exact List.mem_map_of_mem (fun e => (mkFileUri cwd e.1, e.2)) he

theorem claim_C5_witness :
    ((c7Violation ∈ staleOnlyOutput.violations.getD [] ∨
        c7Violation ∈ staleOnlyOutput.stale_violations.getD [] ∨
        c7Violation ∈ staleOnlyOutput.strict_mode_violations.getD []) ∧
      hasValidLocation c7Violation = true) ∧
    createDiagnostic c7Violation ∈ executeDiagnostics staleOnlyOutput := by
  refine ⟨⟨by decide, by decide⟩, ?_⟩
  exact (claim_C5 staleOnlyOutput c7Violation (by decide) (by decide)).1

/-! ## Queue-model helper lemmas -/

theorem optionStep_refl {rel : TaskInfo → TaskInfo → Prop}
    (hrefl : ∀ a, rel a a) : ∀ o, optionStep rel o o
  | none => trivial
  | some a => hrefl a

theorem optionStep_trans {rel : TaskInfo → TaskInfo → Prop}
    (htrans : ∀ a b c, rel a b → rel b c → rel a c) :
    ∀ o1 o2 o3, optionStep rel o1 o2 → optionStep rel o2 o3 →
      optionStep rel o1 o3
  | none, none, none, _, _ => trivial
  | some _, some _, some _, h1, h2 => htrans _ _ _ h1 h2
  | none, some _, _, h1, _ => False.elim h1
  | some _, none, _, h1, _ => False.elim h1
  | none, none, some _, _, h2 => False.elim h2
  | some _, some _, none, _, h2 => False.elim h2

theorem optionStep_none_left {rel : TaskInfo → TaskInfo → Prop} {o : Option TaskInfo}
    (h : optionStep rel none o) : o = none := by
  cases o with
  | none => rfl
  | some _ => exact False.elim h

theorem optionStep_some_left {rel : TaskInfo → TaskInfo → Prop} {a : TaskInfo}
    {o : Option TaskInfo} (h : optionStep rel (some a) o) :
    ∃ b, o = some b ∧ rel a b := by
  cases o with
  | none => exact False.elim h
  | some b => exact ⟨b, rfl, h⟩

theorem optionStep_some_right {rel : TaskInfo → TaskInfo → Prop} {b : TaskInfo}
    {o : Option TaskInfo} (h : optionStep rel o (some b)) :
    ∃ a, o = some a ∧ rel a b := by
  cases o with
  | none => exact False.elim h
  | some a => exact ⟨a, rfl, h⟩

theorem cancelStep_refl (u : String) (a : TaskInfo) : cancelStep u a a :=
  Or.inl rfl

theorem cancelStep_canceled_of (u : String) {a b : TaskInfo}
    (h : cancelStep u a b) (ha : a.canceled = true) : b = a := by
  rcases h with h | ⟨_, hfalse, _⟩
  · exact h
  · rw [ha] at hfalse
    cases hfalse

theorem cancelStep_trans (u : String) {a b c : TaskInfo}
    (h1 : cancelStep u a b) (h2 : cancelStep u b c) : cancelStep u a c := by
  rcases h1 with h1 | ⟨huri, hnc, hb⟩
  · rw [h1] at h2
    exact h2
  · have hbc : b.canceled = true := by rw [hb]
    have := cancelStep_canceled_of u h2 hbc
    rw [this]
    exact Or.inr ⟨huri, hnc, hb⟩

theorem cancelStep_uri (u : String) {a b : TaskInfo} (h : cancelStep u a b) :
    b.uri = a.uri := by
  rcases h with h | ⟨_, _, hb⟩
  · rw [h]
  · rw [hb]

theorem cancelStep_completed (u : String) {a b : TaskInfo} (h : cancelStep u a b) :
    b.completedNormally = a.completedNormally := by
  rcases h with h | ⟨_, _, hb⟩
  · rw [h]
  · rw [hb]

theorem cancelStep_bodyStarted (u : String) {a b : TaskInfo} (h : cancelStep u a b) :
    b.bodyStarted = a.bodyStarted := by
  rcases h with h | ⟨_, _, hb⟩
  · rw [h]
  · rw [hb]

theorem cancelStep_procDone (u : String) {a b : TaskInfo} (h : cancelStep u a b) :
    b.procDone = a.procDone := by
  rcases h with h | ⟨_, _, hb⟩
  · rw [h]
  · rw [hb]

theorem cancelStep_canceled_mono (u : String) {a b : TaskInfo}
    (h : cancelStep u a b) (ha : a.canceled = true) : b.canceled = true := by
  rw [cancelStep_canceled_of u h ha]
  exact ha

theorem cancelStep_queued (u : String) {a b : TaskInfo} (h : cancelStep u a b)
    (ha : a.phase = .queued) : b.phase = .queued := by
  rcases h with h | ⟨_, _, hb⟩
  · rw [h]; exact ha
  · rw [hb]
    simp [ha]

theorem cancelStep_running_rev (u : String) {a b : TaskInfo} (h : cancelStep u a b)
    (hb : b.phase = .running) : b = a ∧ a.phase = .running := by
  rcases h with h | ⟨_, _, hbe⟩
  · rw [h] at hb ⊢
    exact ⟨rfl, hb⟩
  · rw [hbe] at hb
    simp only at hb
    by_cases hr : a.phase = .running
    · rw [if_pos hr] at hb
      cases hb
    · rw [if_neg hr] at hb
      exact absurd hb hr

theorem cancelStep_settled_rev (u : String) {a b : TaskInfo} (h : cancelStep u a b)
    (hb : b.phase = .settled) :
    a.phase = .settled ∨ (a.phase = .running ∧ b.canceled = true) := by
  rcases h with h | ⟨_, _, hbe⟩
  · rw [h] at hb
    exact Or.inl hb
  · by_cases hr : a.phase = .running
    · refine Or.inr ⟨hr, ?_⟩
      rw [hbe]
    · left
      rw [hbe] at hb
      simp only at hb
      rw [if_neg hr] at hb
      exact hb

theorem loopStep_refl (a : TaskInfo) : loopStep a a := Or.inl rfl

theorem loopStep_trans {a b c : TaskInfo} (h1 : loopStep a b) (h2 : loopStep b c) :
    loopStep a c := by
  rcases h1 with h1 | ⟨hq, hc, hb⟩ | ⟨hq, hc, hb⟩
  · rw [h1] at h2; exact h2
  · have hbs : b.phase = .settled := by rw [hb]
    rcases h2 with h2 | ⟨hq2, _, _⟩ | ⟨hq2, _, _⟩
    · rw [h2]; exact Or.inr (Or.inl ⟨hq, hc, hb⟩)
    · rw [hbs] at hq2; cases hq2
    · rw [hbs] at hq2; cases hq2
  · have hbs : b.phase = .running := by rw [hb]
    rcases h2 with h2 | ⟨hq2, _, _⟩ | ⟨hq2, _, _⟩
    · rw [h2]; exact Or.inr (Or.inr ⟨hq, hc, hb⟩)
    · rw [hbs] at hq2; cases hq2
    · rw [hbs] at hq2; cases hq2

theorem loopStep_uri {a b : TaskInfo} (h : loopStep a b) : b.uri = a.uri := by
  rcases h with h | ⟨_, _, hb⟩ | ⟨_, _, hb⟩ <;> first | rw [h] | rw [hb]

theorem loopStep_canceled {a b : TaskInfo} (h : loopStep a b) :
    b.canceled = a.canceled := by
  rcases h with h | ⟨_, _, hb⟩ | ⟨_, _, hb⟩ <;> first | rw [h] | rw [hb]

theorem loopStep_completed {a b : TaskInfo} (h : loopStep a b) :
    b.completedNormally = a.completedNormally := by
  rcases h with h | ⟨_, _, hb⟩ | ⟨_, _, hb⟩ <;> first | rw [h] | rw [hb]

theorem loopStep_procDone {a b : TaskInfo} (h : loopStep a b) :
    b.procDone = a.procDone := by
  rcases h with h | ⟨_, _, hb⟩ | ⟨_, _, hb⟩ <;> first | rw [h] | rw [hb]

theorem loopStep_running_rev {a b : TaskInfo} (h : loopStep a b)
    (hb : b.phase = .running) :
    (a.phase = .running ∧ b = a) ∨
      (a.phase = .queued ∧ a.canceled = false ∧
        b = { a with phase := .running, bodyStarted := true }) := by
  rcases h with h | ⟨hq, hc, hbe⟩ | ⟨hq, hc, hbe⟩
  · rw [h] at hb
    exact Or.inl ⟨hb, h⟩
  · rw [hbe] at hb
    cases hb
  · exact Or.inr ⟨hq, hc, hbe⟩

theorem loopStep_settled_rev {a b : TaskInfo} (h : loopStep a b)
    (hb : b.phase = .settled) :
    (a.phase = .settled ∧ b = a) ∨
      (a.phase = .queued ∧ a.canceled = true ∧ b = { a with phase := .settled }) := by
  rcases h with h | ⟨hq, hc, hbe⟩ | ⟨hq, hc, hbe⟩
  · rw [h] at hb
    exact Or.inl ⟨hb, h⟩
  · exact Or.inr ⟨hq, hc, hbe⟩
  · rw [hbe] at hb
    cases hb

/-! ### setTask and taskCancel -/

theorem setTask_queue (s : QState) (id : Nat) (info : TaskInfo) :
    (setTask s id info).queue = s.queue := rfl

theorem setTask_busy (s : QState) (id : Nat) (info : TaskInfo) :
    (setTask s id info).busy = s.busy := rfl

theorem setTask_awaiting (s : QState) (id : Nat) (info : TaskInfo) :
    (setTask s id info).awaiting = s.awaiting := rfl

theorem setTask_tasks_self (s : QState) (id : Nat) (info : TaskInfo) :
    (setTask s id info).tasks id = some info := by
  simp [setTask]

theorem setTask_tasks_ne (s : QState) (id : Nat) (info : TaskInfo) {j : Nat}
    (h : j ≠ id) : (setTask s id info).tasks j = s.tasks j := by
  simp [setTask, h]

theorem taskCancel_spec (s : QState) (id : Nat) :
    (taskCancel s id).queue = s.queue ∧ (taskCancel s id).busy = s.busy ∧
    (taskCancel s id).awaiting = s.awaiting ∧
    (∀ j, j ≠ id → (taskCancel s id).tasks j = s.tasks j) ∧
    ((taskCancel s id).tasks id = s.tasks id ∨
      ∃ info, s.tasks id = some info ∧ info.canceled = false ∧
        (taskCancel s id).tasks id = some
          { info with canceled := true
                      phase := if info.phase = .running then .settled
                               else info.phase }) := by
  cases hx : s.tasks id with
  | none =>
    simp [taskCancel, hx]
  | some info =>
    by_cases hc : info.canceled
    · simp [taskCancel, hx, hc]
    · refine ⟨?_, ?_, ?_, ?_, ?_⟩
      · simp [taskCancel, hx, hc, setTask_queue]
      · simp [taskCancel, hx, hc, setTask_busy]
      · simp [taskCancel, hx, hc, setTask_awaiting]
      · intro j hj
        simp [taskCancel, hx, hc, setTask_tasks_ne _ _ _ hj]
      · right
        refine ⟨info, rfl, by simpa using hc, ?_⟩
        simp [taskCancel, hx, hc, setTask_tasks_self]

/-! ### cancelUri -/


theorem taskCancel_self (s : QState) (id : Nat) (info : TaskInfo)
    (h : s.tasks id = some info) :
    (info.canceled = true ∧ (taskCancel s id).tasks id = some info) ∨
    (info.canceled = false ∧ (taskCancel s id).tasks id =
      some { info with canceled := true
                       phase := if info.phase = .running then .settled
                                else info.phase }) := by
  by_cases hc : info.canceled
  · left
    exact ⟨hc, by simp [taskCancel, h, hc]⟩
  · right
    refine ⟨by simpa using hc, ?_⟩
    simp [taskCancel, h, hc, setTask_tasks_self]

theorem cancelFold_spec (u : String) (l : List Nat) : ∀ (s : QState),
    (l.foldl (fun acc id =>
      match acc.tasks id with
      | some info => if info.uri = u then taskCancel acc id else acc
      | none => acc) s).queue = s.queue ∧
    (l.foldl (fun acc id =>
      match acc.tasks id with
      | some info => if info.uri = u then taskCancel acc id else acc
      | none => acc) s).busy = s.busy ∧
    (l.foldl (fun acc id =>
      match acc.tasks id with
      | some info => if info.uri = u then taskCancel acc id else acc
      | none => acc) s).awaiting = s.awaiting ∧
    (∀ j, optionStep (cancelStep u) (s.tasks j)
      ((l.foldl (fun acc id =>
        match acc.tasks id with
        | some info => if info.uri = u then taskCancel acc id else acc
        | none => acc) s).tasks j)) ∧
    (∀ j, j ∈ l → ∀ info, s.tasks j = some info → info.uri = u →
      ∃ info', (l.foldl (fun acc id =>
        match acc.tasks id with
        | some info => if info.uri = u then taskCancel acc id else acc
        | none => acc) s).tasks j = some info' ∧ info'.canceled = true ∧
        info'.uri = u) := by
  induction l with
  | nil =>
    intro s
    refine ⟨rfl, rfl, rfl, fun j => optionStep_refl (cancelStep_refl u) _, ?_⟩
    intro j hj
    cases hj
  | cons id rest ih =>
    intro s
    rw [List.foldl_cons]
    cases hx : s.tasks id with
    | none =>
      have hred : (match (none : Option TaskInfo) with
          | some i => if i.uri = u then taskCancel s id else s
          | none => s) = s := rfl
      rw [hred]
      obtain ⟨hq, hb, ha, hrel, hcan⟩ := ih s
      refine ⟨hq, hb, ha, hrel, ?_⟩
      intro j hj info hinfo huri
      rcases List.mem_cons.mp hj with heq | hmem
      · subst heq
        rw [hx] at hinfo
        cases hinfo
      · exact hcan j hmem info hinfo huri
    | some info =>
      by_cases huri0 : info.uri = u
      · have hred : (match (some info : Option TaskInfo) with
            | some i => if i.uri = u then taskCancel s id else s
            | none => s) = taskCancel s id := by
          simp [huri0]
        rw [hred]
        obtain ⟨hq1, hb1, ha1, hne1, _⟩ := taskCancel_spec s id
        obtain ⟨hq2, hb2, ha2, hrel2, hcan2⟩ := ih (taskCancel s id)
        have hrel1 : ∀ j, optionStep (cancelStep u) (s.tasks j)
            ((taskCancel s id).tasks j) := by
          intro j
          by_cases hj : j = id
          · subst hj
            rw [hx]
            rcases taskCancel_self s j info hx with ⟨_, hset⟩ | ⟨hnc, hset⟩
            · rw [hset]
              exact optionStep_refl (cancelStep_refl u) _
            · rw [hset]
              exact Or.inr ⟨huri0, hnc, rfl⟩
          · rw [hne1 j hj]
            exact optionStep_refl (cancelStep_refl u) _
        have hcan1 : ∃ info', (taskCancel s id).tasks id = some info' ∧
            info'.canceled = true ∧ info'.uri = u := by
          rcases taskCancel_self s id info hx with ⟨hc, hset⟩ | ⟨_, hset⟩
          · exact ⟨info, hset, hc, huri0⟩
          · exact ⟨_, hset, rfl, huri0⟩
        refine ⟨hq2.trans hq1, hb2.trans hb1, ha2.trans ha1, ?_, ?_⟩
        · intro j
          exact @optionStep_trans (cancelStep u)
            (fun a b c h1 h2 => cancelStep_trans u h1 h2)
            _ _ _ (hrel1 j) (hrel2 j)
        · intro j hj info1 hinfo1 huri1
          rcases List.mem_cons.mp hj with heq | hmem
          · subst heq
            obtain ⟨info', hinfo', hcanc', huri'⟩ := hcan1
            obtain ⟨info'', hinfo'', hrel''⟩ := optionStep_some_left
              ((hinfo' ▸ hrel2 j) :
                optionStep (cancelStep u) (some info') _)
            refine ⟨info'', hinfo'', ?_, ?_⟩
            · exact cancelStep_canceled_mono u hrel'' hcanc'
            · rw [cancelStep_uri u hrel'', huri']
          · obtain ⟨infoM, hinfoM, hrelM⟩ := optionStep_some_left
              ((hinfo1 ▸ hrel1 j) :
                optionStep (cancelStep u) (some info1) _)
            exact hcan2 j hmem infoM hinfoM
              (by rw [cancelStep_uri u hrelM, huri1])
      · have hred : (match (some info : Option TaskInfo) with
            | some i => if i.uri = u then taskCancel s id else s
            | none => s) = s := by
          simp [huri0]
        rw [hred]
        obtain ⟨hq, hb, ha, hrel, hcan⟩ := ih s
        refine ⟨hq, hb, ha, hrel, ?_⟩
        intro j hj info1 hinfo1 huri1
        rcases List.mem_cons.mp hj with heq | hmem
        · subst heq
          rw [hx] at hinfo1
          cases hinfo1
          exact absurd huri1 huri0
        · exact hcan j hmem info1 hinfo1 huri1

theorem cancelUri_spec (s : QState) (u : String) :
    (cancelUri s u).queue = s.queue ∧
    (cancelUri s u).busy = s.busy ∧
    (cancelUri s u).awaiting = s.awaiting ∧
    (∀ j, optionStep (cancelStep u) (s.tasks j) ((cancelUri s u).tasks j)) ∧
    (∀ j, j ∈ s.queue → ∀ info, s.tasks j = some info → info.uri = u →
      ∃ info', (cancelUri s u).tasks j = some info' ∧ info'.canceled = true ∧
        info'.uri = u) :=
  cancelFold_spec u s.queue s

/-! ### loopRun -/

theorem loopRun_nil (s : QState) :
    loopRun s [] = { s with queue := [], busy := false, awaiting := none } := rfl

theorem loopRun_cons_none (s : QState) (id : Nat) (rest : List Nat)
    (h : s.tasks id = none) : loopRun s (id :: rest) = loopRun s rest := by
  simp [loopRun, h]

theorem loopRun_cons_queued_canceled (s : QState) (id : Nat) (rest : List Nat)
    (info : TaskInfo) (h : s.tasks id = some info) (hph : info.phase = .queued)
    (hc : info.canceled = true) :
    loopRun s (id :: rest) =
      loopRun (setTask s id { info with phase := .settled }) rest := by
  simp [loopRun, h, hph, hc]

theorem loopRun_cons_queued_active (s : QState) (id : Nat) (rest : List Nat)
    (info : TaskInfo) (h : s.tasks id = some info) (hph : info.phase = .queued)
    (hc : info.canceled = false) :
    loopRun s (id :: rest) =
      setTask { s with queue := id :: rest, awaiting := some id } id
        { info with phase := .running, bodyStarted := true } := by
  simp [loopRun, h, hph, hc]

theorem loopRun_main (l : List Nat) : ∀ (s : QState),
    s.busy = true →
    (∀ id, id ∈ l → ∃ info, s.tasks id = some info ∧ info.phase = .queued) →
    l.Nodup →
    (loopRun s l).queue <:+ l ∧
    (∀ id, optionStep loopStep (s.tasks id) ((loopRun s l).tasks id)) ∧
    (∀ id, id ∈ (loopRun s l).queue.drop 1 →
      (loopRun s l).tasks id = s.tasks id) ∧
    (((loopRun s l).busy = false ∧ (loopRun s l).awaiting = none ∧
        (loopRun s l).queue = []) ∨
      (∃ id0 info0, (loopRun s l).awaiting = some id0 ∧
        (loopRun s l).queue.head? = some id0 ∧ (loopRun s l).busy = true ∧
        s.tasks id0 = some info0 ∧ info0.phase = .queued ∧
        info0.canceled = false ∧
        (loopRun s l).tasks id0 =
          some { info0 with phase := .running, bodyStarted := true })) ∧
    (∀ id info', (loopRun s l).tasks id = some info' →
      info'.phase = .running →
      (∃ info, s.tasks id = some info ∧ info.phase = .running) ∨
      (loopRun s l).awaiting = some id) := by
  induction l with
  | nil =>
    intro s hbusy hq hnd
    rw [loopRun_nil]
    refine ⟨List.suffix_refl [], fun id => optionStep_refl loopStep_refl _,
      ?_, Or.inl ⟨rfl, rfl, rfl⟩, ?_⟩
    · intro id hid
      cases hid
    · intro id info' hinfo' hrun
      exact Or.inl ⟨info', hinfo', hrun⟩
  | cons id l' ih =>
    intro s hbusy hq hnd
    obtain ⟨hnotmem, hnd'⟩ := List.nodup_cons.mp hnd
    obtain ⟨info, hinfo, hph⟩ := hq id (List.mem_cons_self id l')
    cases hc : info.canceled with
    | true =>
      rw [loopRun_cons_queued_canceled s id l' info hinfo hph hc]
      have hbusy1 : (setTask s id { info with phase := .settled }).busy = true := hbusy
      have hq1 : ∀ j, j ∈ l' →
          ∃ infoJ, (setTask s id { info with phase := .settled }).tasks j =
            some infoJ ∧ infoJ.phase = .queued := by
        intro j hj
        have hne : j ≠ id := fun hEq => hnotmem (hEq ▸ hj)
        rw [setTask_tasks_ne _ _ _ hne]
        exact hq j (List.mem_cons_of_mem id hj)
      obtain ⟨ih1, ih2, ih3, ih4, ih5⟩ := ih _ hbusy1 hq1 hnd'
      have hstep1 : ∀ j, optionStep loopStep (s.tasks j)
          ((setTask s id { info with phase := .settled }).tasks j) := by
        intro j
        by_cases hj : j = id
        · subst hj
          rw [hinfo, setTask_tasks_self]
          exact Or.inr (Or.inl ⟨hph, hc, rfl⟩)
        · rw [setTask_tasks_ne _ _ _ hj]
          exact optionStep_refl loopStep_refl _
      refine ⟨ih1.trans (List.suffix_cons id l'), ?_, ?_, ?_, ?_⟩
      · intro j
        exact @optionStep_trans loopStep
          (fun a b c h1 h2 => loopStep_trans h1 h2) _ _ _ (hstep1 j) (ih2 j)
      · intro j hj
        have hmemq : j ∈ (loopRun (setTask s id { info with phase := .settled }) l').queue :=
          List.drop_subset 1 _ hj
        have hmem' : j ∈ l' := ih1.subset hmemq
        have hne : j ≠ id := fun hEq => hnotmem (hEq ▸ hmem')
        rw [ih3 j hj, setTask_tasks_ne _ _ _ hne]
      · rcases ih4 with h4 | ⟨id0, info0, ha0, hh0, hb0, ht0, hp0, hc0, hr0⟩
        · exact Or.inl h4
        · right
          have hid0mem : id0 ∈ (loopRun (setTask s id { info with phase := .settled }) l').queue := by
            cases hqe : (loopRun (setTask s id { info with phase := .settled }) l').queue with
            | nil => rw [hqe] at hh0; cases hh0
            | cons a t =>
              rw [hqe] at hh0
              have hEq2 : a = id0 := by simpa using hh0
              rw [hEq2]
              exact List.mem_cons_self id0 t
          have hmem' : id0 ∈ l' := ih1.subset hid0mem
          have hne : id0 ≠ id := fun hEq => hnotmem (hEq ▸ hmem')
          rw [setTask_tasks_ne _ _ _ hne] at ht0
          exact ⟨id0, info0, ha0, hh0, hb0, ht0, hp0, hc0, hr0⟩
      · intro j info' hinfo' hrun
        rcases ih5 j info' hinfo' hrun with ⟨infoM, hinfoM, hrunM⟩ | hawait
        · by_cases hj : j = id
          · subst hj
            rw [setTask_tasks_self] at hinfoM
            cases hinfoM
            cases hrunM
          · rw [setTask_tasks_ne _ _ _ hj] at hinfoM
            exact Or.inl ⟨infoM, hinfoM, hrunM⟩
        · exact Or.inr hawait
    | false =>
      rw [loopRun_cons_queued_active s id l' info hinfo hph hc]
      refine ⟨List.suffix_refl _, ?_, ?_, ?_, ?_⟩
      · intro j
        by_cases hj : j = id
        · subst hj
          rw [hinfo, setTask_tasks_self]
          exact Or.inr (Or.inr ⟨hph, hc, rfl⟩)
        · rw [setTask_tasks_ne _ _ _ hj]
          exact optionStep_refl loopStep_refl _
      · intro j hj
        have hj' : j ∈ l' := hj
        have hne : j ≠ id := fun hEq => hnotmem (hEq ▸ hj')
        exact setTask_tasks_ne _ _ _ hne
      · right
        exact ⟨id, info, rfl, rfl, hbusy, hinfo, hph, hc, setTask_tasks_self _ _ _⟩
      · intro j info' hinfo' hrun
        by_cases hj : j = id
        · subst hj
          exact Or.inr rfl
        · rw [setTask_tasks_ne _ _ _ hj] at hinfo'
          exact Or.inl ⟨info', hinfo', hrun⟩

theorem cancelStep_notQueued (u : String) {a b : TaskInfo} (h : cancelStep u a b)
    (ha : a.phase ≠ .queued) : b.phase ≠ .queued := by
  rcases h with h | ⟨_, _, hbe⟩
  · rw [h]; exact ha
  · rw [hbe]
    simp only
    by_cases hr : a.phase = .running
    · rw [if_pos hr]
      intro hcontra
      cases hcontra
    · rw [if_neg hr]
      exact ha

theorem uriCancelOK_mono {s s' : QState} {rel : TaskInfo → TaskInfo → Prop}
    (huri : ∀ a b, rel a b → b.uri = a.uri)
    (hcanc : ∀ a b, rel a b → a.canceled = true → b.canceled = true)
    {x y : Nat}
    (hx : optionStep rel (s.tasks x) (s'.tasks x))
    (hy : optionStep rel (s.tasks y) (s'.tasks y))
    (h : uriCancelOK s x y) : uriCancelOK s' x y := by
  intro ia ib hia hib huriEq
  obtain ⟨a0, ha0, hrelA⟩ := optionStep_some_right (hia ▸ hx)
  obtain ⟨b0, hb0, hrelB⟩ := optionStep_some_right (hib ▸ hy)
  apply hcanc a0 ia hrelA
  apply h a0 b0 ha0 hb0
  have h1 : ia.uri = a0.uri := huri _ _ hrelA
  have h2 : ib.uri = b0.uri := huri _ _ hrelB
  rw [← h1, ← h2]
  exact huriEq

/-! ### drain -/

theorem drain_none (s : QState) (h : s.awaiting = none) : drain s = s := by
  simp [drain, h]

theorem drain_not_settled (s : QState) (id : Nat) (info : TaskInfo)
    (ha : s.awaiting = some id) (ht : s.tasks id = some info)
    (hph : info.phase ≠ .settled) : drain s = s := by
  simp [drain, ha, ht, hph]

theorem drain_settled (s : QState) (id : Nat) (info : TaskInfo)
    (ha : s.awaiting = some id) (ht : s.tasks id = some info)
    (hph : info.phase = .settled) :
    drain s = loopRun { s with awaiting := none } (s.queue.drop 1) := by
  simp [drain, ha, ht, hph]

/-! ### The invariant holds after a loop pass -/

theorem qinv_of_loopRun (s : QState) (l : List Nat)
    (hbusy : s.busy = true)
    (hq : ∀ id, id ∈ l → ∃ info, s.tasks id = some info ∧ info.phase = .queued)
    (hnd : l.Nodup)
    (hnorun : ∀ j info, s.tasks j = some info → info.phase ≠ .running)
    (hbody : ∀ j info, s.tasks j = some info → info.bodyStarted = true →
      info.phase ≠ .queued)
    (hsettled : ∀ j info, s.tasks j = some info → info.phase = .settled →
      info.canceled = true ∨ info.procDone = true)
    (hpair : l.Pairwise (uriCancelOK s)) :
    QInv (loopRun s l) := by
  obtain ⟨m1, m2, m3, m4, m5⟩ := loopRun_main l s hbusy hq hnd
  constructor
  case awaitHead =>
    intro id h
    rcases m4 with ⟨_, ha, _⟩ | ⟨id0, info0, ha0, hh0, _, _, _, _, _⟩
    · rw [ha] at h
      cases h
    · rw [ha0] at h
      cases h
      exact hh0
  case runningAwaited =>
    intro id info hinfo hrun
    rcases m5 id info hinfo hrun with ⟨infoS, hinfoS, hrunS⟩ | hawait
    · exact absurd hrunS (hnorun id infoS hinfoS)
    · exact hawait
  case awaitedRunning =>
    intro id h
    rcases m4 with ⟨_, ha, _⟩ | ⟨id0, info0, ha0, _, _, _, _, _, hr0⟩
    · rw [ha] at h
      cases h
    · rw [ha0] at h
      cases h
      exact ⟨_, hr0, rfl⟩
  case notBusyIdle =>
    intro hfb
    rcases m4 with ⟨_, ha, hqe⟩ | ⟨_, _, _, _, hb0, _, _, _, _⟩
    · exact ⟨ha, hqe⟩
    · rw [hb0] at hfb
      cases hfb
  case busyAwaiting =>
    intro hbt
    rcases m4 with ⟨hb0, _, _⟩ | ⟨id0, _, ha0, _, _, _, _, _, _⟩
    · rw [hb0] at hbt
      cases hbt
    · rw [ha0]
      rfl
  case queueTasks =>
    intro id hid
    have hidl : id ∈ l := m1.subset hid
    obtain ⟨info, hinfo, _⟩ := hq id hidl
    obtain ⟨info', hinfo', _⟩ := optionStep_some_left (hinfo ▸ m2 id)
    rw [hinfo']
    rfl
  case nodup => exact hnd.sublist m1.sublist
  case tailQueued =>
    intro id info hid hinfo
    have heq := m3 id hid
    rw [heq] at hinfo
    have hidl : id ∈ l := m1.subset (List.drop_subset 1 _ hid)
    obtain ⟨infoQ, hinfoQ, hphQ⟩ := hq id hidl
    rw [hinfoQ] at hinfo
    cases hinfo
    exact hphQ
  case bodyStartedNotQueued =>
    intro id info' hinfo' hbs
    obtain ⟨a, ha, hrel⟩ := optionStep_some_right (hinfo' ▸ m2 id)
    rcases hrel with hrel | ⟨_, _, hbe⟩ | ⟨_, _, hbe⟩
    · rw [hrel]
      exact hbody id a ha (by rw [hrel] at hbs; exact hbs)
    · rw [hbe]
      intro hcontra
      cases hcontra
    · rw [hbe]
      intro hcontra
      cases hcontra
  case settledResolved =>
    intro id info' hinfo' hph
    obtain ⟨a, ha, hrel⟩ := optionStep_some_right (hinfo' ▸ m2 id)
    rcases loopStep_settled_rev hrel hph with ⟨hphA, hbe⟩ | ⟨_, hcA, hbe⟩
    · rw [hbe]
      exact hsettled id a ha hphA
    · rw [hbe]
      exact Or.inl hcA
  case runningNotCanceled =>
    intro id info' hinfo' hph
    obtain ⟨a, ha, hrel⟩ := optionStep_some_right (hinfo' ▸ m2 id)
    rcases loopStep_running_rev hrel hph with ⟨hphA, _⟩ | ⟨_, hcA, hbe⟩
    · exact absurd hphA (hnorun id a ha)
    · rw [hbe]
      exact hcA
  case settledNotQueued =>
    intro id info' hinfo' hph hid
    rcases m4 with ⟨_, _, hqe⟩ | ⟨id0, info0, _, hh0, _, _, _, _, hr0⟩
    · rw [hqe] at hid
      cases hid
    · cases hqe : (loopRun s l).queue with
      | nil =>
        rw [hqe] at hid
        cases hid
      | cons a t =>
        rw [hqe] at hh0 hid
        have ha0 : a = id0 := by simpa using hh0
        rcases List.mem_cons.mp hid with heq | hmem
        · subst heq
          rw [ha0] at hinfo'
          rw [hr0] at hinfo'
          cases hinfo'
          cases hph
        · have hdrop : id ∈ (loopRun s l).queue.drop 1 := by
            rw [hqe]
            exact hmem
          have heq2 := m3 id hdrop
          rw [heq2] at hinfo'
          have hidl : id ∈ l := m1.subset (by rw [hqe]; exact List.mem_cons_of_mem a hmem)
          obtain ⟨infoQ, hinfoQ, hphQ⟩ := hq id hidl
          rw [hinfoQ] at hinfo'
          cases hinfo'
          rw [hphQ] at hph
          cases hph
  case pairwiseUri =>
    have htrans : l.Pairwise (uriCancelOK (loopRun s l)) :=
      hpair.imp (fun hab => uriCancelOK_mono
        (fun a b h => loopStep_uri h)
        (fun a b h ha => by rw [loopStep_canceled h]; exact ha)
        (m2 _) (m2 _) hab)
    exact htrans.sublist m1.sublist

theorem drain_of_qinv (s : QState) (h : QInv s) : drain s = s := by
  cases ha : s.awaiting with
  | none => exact drain_none s ha
  | some id =>
    obtain ⟨info, hinfo, hph⟩ := h.awaitedRunning id ha
    exact drain_not_settled s id info ha hinfo (by rw [hph]; intro hc; cases hc)

/-! ### applyEvent unfoldings -/

theorem applyEvent_enq_dup (s : QState) (id : Nat) (u : String) (info : TaskInfo)
    (h : s.tasks id = some info) : applyEvent s (.enq id u) = s := by
  simp [applyEvent, h]

theorem applyEvent_enq_fresh (s : QState) (id : Nat) (u : String)
    (h : s.tasks id = none) :
    applyEvent s (.enq id u) = drain (kick
      { cancelUri s u with
        queue := (cancelUri s u).queue ++ [id]
        tasks := fun j =>
          if j = id then
            some { uri := u, canceled := false, phase := .queued
                   bodyStarted := false, procDone := false
                   completedNormally := false }
          else (cancelUri s u).tasks j }) := by
  simp [applyEvent, h]

theorem applyEvent_cancelEvt (s : QState) (u : String) :
    applyEvent s (.cancelEvt u) = drain (cancelUri s u) := rfl

theorem applyEvent_complete_none (s : QState) (id : Nat)
    (h : s.tasks id = none) : applyEvent s (.complete id) = s := by
  simp [applyEvent, h]

theorem applyEvent_complete_stale (s : QState) (id : Nat) (info : TaskInfo)
    (h : s.tasks id = some info)
    (hguard : ¬(info.bodyStarted = true ∧ ¬info.procDone = true)) :
    applyEvent s (.complete id) = s := by
  simp only [applyEvent, h]
  rw [if_neg]
  simpa using hguard

theorem applyEvent_complete_canceled (s : QState) (id : Nat) (info : TaskInfo)
    (h : s.tasks id = some info)
    (hbs : info.bodyStarted = true) (hpd : info.procDone = false)
    (hc : info.canceled = true) :
    applyEvent s (.complete id) = drain (setTask s id
      { info with procDone := true
                  phase := if info.phase = .running then .settled
                           else info.phase }) := by
  simp [applyEvent, h, hbs, hpd, hc]

theorem applyEvent_complete_normal (s : QState) (id : Nat) (info : TaskInfo)
    (h : s.tasks id = some info)
    (hbs : info.bodyStarted = true) (hpd : info.procDone = false)
    (hc : info.canceled = false) :
    applyEvent s (.complete id) = drain (setTask s id
      { info with procDone := true, completedNormally := true
                  phase := if info.phase = .running then .settled
                           else info.phase }) := by
  simp [applyEvent, h, hbs, hpd, hc]

/-! ### Invariant preservation: enqueue -/

theorem qinv_enq_core (s S1 : QState) (id : Nat) (u : String)
    (h : QInv s)
    (hfresh : s.tasks id = none)
    (hq1 : S1.queue = s.queue) (hb1 : S1.busy = s.busy)
    (ha1 : S1.awaiting = s.awaiting)
    (hrel1 : ∀ j, optionStep (cancelStep u) (s.tasks j) (S1.tasks j))
    (hcan1 : ∀ j, j ∈ s.queue → ∀ info, s.tasks j = some info → info.uri = u →
      ∃ info', S1.tasks j = some info' ∧ info'.canceled = true ∧
        info'.uri = u) :
    QInv (drain (kick
      { S1 with
        queue := S1.queue ++ [id]
        tasks := fun j =>
          if j = id then
            some { uri := u, canceled := false, phase := .queued
                   bodyStarted := false, procDone := false
                   completedNormally := false }
          else S1.tasks j })) := by
  set S2 : QState :=
    { S1 with
      queue := S1.queue ++ [id]
      tasks := fun j =>
        if j = id then
          some { uri := u, canceled := false, phase := .queued
                 bodyStarted := false, procDone := false
                 completedNormally := false }
        else S1.tasks j } with hS2
  have hS2q : S2.queue = s.queue ++ [id] := by
    rw [hS2]
    show S1.queue ++ [id] = s.queue ++ [id]
    rw [hq1]
  have hS2b : S2.busy = s.busy := by rw [hS2]; exact hb1
  have hS2a : S2.awaiting = s.awaiting := by rw [hS2]; exact ha1
  have hS2id : S2.tasks id =
      some { uri := u, canceled := false, phase := .queued
             bodyStarted := false, procDone := false
             completedNormally := false } := by
    rw [hS2]
    simp
  have hS2ne : ∀ j, j ≠ id → S2.tasks j = S1.tasks j := by
    intro j hj
    rw [hS2]
    simp [hj]
  have hidnotmem : id ∉ s.queue := by
    intro hmem
    have hsome := h.queueTasks id hmem
    rw [hfresh] at hsome
    simp at hsome
  have hnodup2 : S2.queue.Nodup := by
    rw [hS2q, List.nodup_append]
    exact ⟨h.nodup, List.nodup_singleton id, by
      intro x hx hxid
      simp at hxid
      exact hidnotmem (hxid ▸ hx)⟩
  have hqueueTasks2 : ∀ j, j ∈ S2.queue → (S2.tasks j).isSome := by
    intro j hj
    by_cases hjid : j = id
    · subst hjid
      rw [hS2id]
      rfl
    · rw [hS2ne j hjid]
      rw [hS2q] at hj
      rcases List.mem_append.mp hj with hjs | hjone
      · obtain ⟨infoj, hinfoj⟩ :=
          Option.isSome_iff_exists.mp (h.queueTasks j hjs)
        obtain ⟨infoj', hinfoj', _⟩ := optionStep_some_left (hinfoj ▸ hrel1 j)
        rw [hinfoj']
        rfl
      · simp at hjone
        exact absurd hjone hjid
  have hbody2 : ∀ j info, S2.tasks j = some info → info.bodyStarted = true →
      info.phase ≠ .queued := by
    intro j info hinfo hbs
    by_cases hjid : j = id
    · subst hjid
      rw [hS2id] at hinfo
      cases hinfo
      cases hbs
    · rw [hS2ne _ hjid] at hinfo
      obtain ⟨a0, ha0, hrel⟩ := optionStep_some_right (hinfo ▸ hrel1 j)
      have hbs0 : a0.bodyStarted = true := by
        rw [← cancelStep_bodyStarted u hrel]
        exact hbs
      exact cancelStep_notQueued u hrel (h.bodyStartedNotQueued j a0 ha0 hbs0)
  have hsettled2 : ∀ j info, S2.tasks j = some info → info.phase = .settled →
      info.canceled = true ∨ info.procDone = true := by
    intro j info hinfo hph
    by_cases hjid : j = id
    · subst hjid
      rw [hS2id] at hinfo
      cases hinfo
      cases hph
    · rw [hS2ne _ hjid] at hinfo
      obtain ⟨a0, ha0, hrel⟩ := optionStep_some_right (hinfo ▸ hrel1 j)
      rcases cancelStep_settled_rev u hrel hph with hphA | ⟨_, hcB⟩
      · rcases h.settledResolved j a0 ha0 hphA with hcA | hpA
        · exact Or.inl (cancelStep_canceled_mono u hrel hcA)
        · right
          rw [cancelStep_procDone u hrel]
          exact hpA
      · exact Or.inl hcB
  have hcrossOK : ∀ x, x ∈ s.queue → uriCancelOK S2 x id := by
    intro x hx ix iid hix hiid huriEq
    rw [hS2id] at hiid
    cases hiid
    have hxne : x ≠ id := fun hEq => hidnotmem (hEq ▸ hx)
    rw [hS2ne _ hxne] at hix
    obtain ⟨a0, ha0, hrel⟩ := optionStep_some_right (hix ▸ hrel1 x)
    have ha0uri : a0.uri = u := by
      rw [← cancelStep_uri u hrel]
      exact huriEq
    obtain ⟨info', hinfo', hcanc', _⟩ := hcan1 x hx a0 ha0 ha0uri
    rw [hix] at hinfo'
    cases hinfo'
    exact hcanc'
  have hqueuePairOK : ∀ x y, x ∈ s.queue → y ∈ s.queue →
      uriCancelOK s x y → uriCancelOK S2 x y := by
    intro x y hx hy hab
    have hxne : x ≠ id := fun hEq => hidnotmem (hEq ▸ hx)
    have hyne : y ≠ id := fun hEq => hidnotmem (hEq ▸ hy)
    have hxstep : optionStep (cancelStep u) (s.tasks x) (S2.tasks x) := by
      rw [hS2ne _ hxne]
      exact hrel1 x
    have hystep : optionStep (cancelStep u) (s.tasks y) (S2.tasks y) := by
      rw [hS2ne _ hyne]
      exact hrel1 y
    exact uriCancelOK_mono (fun a b hr => cancelStep_uri u hr)
      (fun a b hr ha => cancelStep_canceled_mono u hr ha) hxstep hystep hab
  by_cases hbusy : s.busy = true
  · -- the queue is busy: kick is a no-op
    have hS2bt : S2.busy = true := by rw [hS2b]; exact hbusy
    have hkick : kick S2 = S2 := by rw [kick, if_pos hS2bt]
    rw [hkick]
    obtain ⟨a, ha⟩ := Option.isSome_iff_exists.mp (h.busyAwaiting hbusy)
    obtain ⟨infoA, hinfoA, hrunA⟩ := h.awaitedRunning a ha
    have hheadA := h.awaitHead a ha
    have hS2awA : S2.awaiting = some a := by rw [hS2a]; exact ha
    cases hsq : s.queue with
    | nil =>
      rw [hsq] at hheadA
      cases hheadA
    | cons a0 tail =>
      have ha0 : a0 = a := by
        rw [hsq] at hheadA
        simpa using hheadA
      subst ha0
      have hamem : a0 ∈ s.queue := by
        rw [hsq]
        exact List.mem_cons_self a0 tail
      have hane : a0 ≠ id := fun hEq => hidnotmem (hEq ▸ hamem)
      have hS2taskA : S2.tasks a0 = S1.tasks a0 := hS2ne a0 hane
      obtain ⟨infoA', hinfoA', hrelA⟩ := optionStep_some_left (hinfoA ▸ hrel1 a0)
      have htailmem : ∀ j, j ∈ tail → j ∈ s.queue := by
        intro j hj
        rw [hsq]
        exact List.mem_cons_of_mem _ hj
      have htailnodup : tail.Nodup := by
        have hn := h.nodup
        rw [hsq] at hn
        exact (List.nodup_cons.mp hn).2
      have hanotintail : a0 ∉ tail := by
        have hn := h.nodup
        rw [hsq] at hn
        exact (List.nodup_cons.mp hn).1
      have hidnotintail : id ∉ tail := fun hj => hidnotmem (htailmem id hj)
      have htailpair : List.Pairwise (uriCancelOK S2) (tail ++ [id]) := by
        rw [List.pairwise_append]
        refine ⟨?_, List.pairwise_singleton _ _, ?_⟩
        · have hp := h.pairwiseUri
          rw [hsq] at hp
          have hptail := List.Pairwise.of_cons hp
          exact List.Pairwise.imp_of_mem
            (fun hxm hym hab =>
              hqueuePairOK _ _ (htailmem _ hxm) (htailmem _ hym) hab) hptail
        · intro x hx y hy
          simp only [List.mem_singleton] at hy
          subst hy
          exact hcrossOK x (htailmem x hx)
      have htailq : ∀ j, j ∈ tail → ∃ info, S2.tasks j = some info ∧
          info.phase = .queued := by
        intro j hjt
        have hjne : j ≠ id := fun hEq => hidnotintail (hEq ▸ hjt)
        rw [hS2ne _ hjne]
        obtain ⟨qi, hqi⟩ :=
          Option.isSome_iff_exists.mp (h.queueTasks j (htailmem j hjt))
        have hq0 : qi.phase = .queued := by
          apply h.tailQueued j qi _ hqi
          rw [hsq]
          exact hjt
        obtain ⟨qi', hqi', hrel⟩ := optionStep_some_left (hqi ▸ hrel1 j)
        exact ⟨qi', hqi', cancelStep_queued u hrel hq0⟩
      rcases hrelA with hsame | ⟨huriA, hncA, hbeA⟩
      · -- the running task was not canceled: no microtask is pending
        have hrunA' : infoA'.phase = .running := by rw [hsame]; exact hrunA
        have hdrain : drain S2 = S2 := by
          apply drain_not_settled S2 a0 infoA' hS2awA
            (by rw [hS2taskA]; exact hinfoA')
          rw [hrunA']
          intro hcontra
          cases hcontra
        rw [hdrain]
        refine ⟨?_, ?_, ?_, ?_, ?_, ?_, ?_, ?_, ?_, ?_, ?_, ?_, ?_⟩
        ·
          intro j hj
          rw [hS2awA] at hj
          cases hj
          rw [hS2q, hsq]
          rfl
        ·
          intro j info hinfo hrun
          by_cases hjid : j = id
          · subst hjid
            rw [hS2id] at hinfo
            cases hinfo
            cases hrun
          · rw [hS2ne _ hjid] at hinfo
            obtain ⟨b0, hb0, hrel⟩ := optionStep_some_right (hinfo ▸ hrel1 j)
            obtain ⟨_, hr0⟩ := cancelStep_running_rev u hrel hrun
            have h1 := h.runningAwaited j b0 hb0 hr0
            rw [ha] at h1
            have hja : a0 = j := by
              injection h1
            rw [hS2awA, hja]
        ·
          intro j hj
          rw [hS2awA] at hj
          cases hj
          refine ⟨infoA', ?_, hrunA'⟩
          rw [hS2taskA]
          exact hinfoA'
        ·
          intro hf
          rw [hS2bt] at hf
          cases hf
        ·
          intro _
          rw [hS2awA]
          rfl
        · exact hqueueTasks2
        · exact hnodup2
        ·
          intro j info hj hinfo
          rw [hS2q, hsq] at hj
          rw [show ((a0 :: tail) ++ [id]).drop 1 = tail ++ [id] from rfl] at hj
          rcases List.mem_append.mp hj with hjt | hjone
          · obtain ⟨qi', hqi', hphQ⟩ := htailq j hjt
            rw [hqi'] at hinfo
            cases hinfo
            exact hphQ
          · simp only [List.mem_singleton] at hjone
            subst hjone
            rw [hS2id] at hinfo
            cases hinfo
            rfl
        · exact hbody2
        · exact hsettled2
        ·
          intro j info hinfo hrun
          by_cases hjid : j = id
          · subst hjid
            rw [hS2id] at hinfo
            cases hinfo
            cases hrun
          · rw [hS2ne _ hjid] at hinfo
            obtain ⟨b0, hb0, hrel⟩ := optionStep_some_right (hinfo ▸ hrel1 j)
            obtain ⟨hbe, hr0⟩ := cancelStep_running_rev u hrel hrun
            rw [hbe]
            exact h.runningNotCanceled j b0 hb0 hr0
        ·
          intro j info hinfo hph hjmem
          by_cases hjid : j = id
          · subst hjid
            rw [hS2id] at hinfo
            cases hinfo
            cases hph
          · rw [hS2ne _ hjid] at hinfo
            obtain ⟨b0, hb0, hrel⟩ := optionStep_some_right (hinfo ▸ hrel1 j)
            rcases cancelStep_settled_rev u hrel hph with hphB | ⟨hr0, _⟩
            · have hnotq := h.settledNotQueued j b0 hb0 hphB
              rw [hS2q] at hjmem
              rcases List.mem_append.mp hjmem with hjs | hjone
              · exact hnotq hjs
              · simp only [List.mem_singleton] at hjone
                exact hjid hjone
            · have h1 := h.runningAwaited j b0 hb0 hr0
              rw [ha] at h1
              have hja : a0 = j := by injection h1
              subst hja
              rw [hinfoA'] at hinfo
              cases hinfo
              rw [hsame] at hph
              rw [hrunA] at hph
              cases hph
        ·
          rw [hS2q, hsq]
          rw [show (a0 :: tail) ++ [id] = a0 :: (tail ++ [id]) from rfl]
          rw [List.pairwise_cons]
          refine ⟨?_, htailpair⟩
          intro y hy
          rcases List.mem_append.mp hy with hyt | hyone
          · have hp := h.pairwiseUri
            rw [hsq, List.pairwise_cons] at hp
            exact hqueuePairOK a0 y hamem (htailmem y hyt) (hp.1 y hyt)
          · simp only [List.mem_singleton] at hyone
            subst hyone
            exact hcrossOK a0 hamem
      · -- the running task was canceled: the microtask advances the loop
        have hphA' : infoA'.phase = .settled := by
          rw [hbeA]
          simp [hrunA]
        have hdrain : drain S2 =
            loopRun { S2 with awaiting := none } (S2.queue.drop 1) := by
          apply drain_settled S2 a0 infoA' hS2awA
            (by rw [hS2taskA]; exact hinfoA') hphA'
        rw [hdrain]
        have hdropq : S2.queue.drop 1 = tail ++ [id] := by
          rw [hS2q, hsq]
          rfl
        rw [hdropq]
        apply qinv_of_loopRun
        · exact hS2bt
        · intro j hj
          show ∃ info, S2.tasks j = some info ∧ info.phase = .queued
          rcases List.mem_append.mp hj with hjt | hjone
          · exact htailq j hjt
          · simp only [List.mem_singleton] at hjone
            subst hjone
            exact ⟨_, hS2id, rfl⟩
        · rw [List.nodup_append]
          refine ⟨htailnodup, List.nodup_singleton id, ?_⟩
          intro x hx hxid
          simp only [List.mem_singleton] at hxid
          exact hidnotintail (hxid ▸ hx)
        · intro j info hinfo hrun
          have hinfo2 : S2.tasks j = some info := hinfo
          by_cases hjid : j = id
          · subst hjid
            rw [hS2id] at hinfo2
            cases hinfo2
            cases hrun
          · rw [hS2ne _ hjid] at hinfo2
            obtain ⟨b0, hb0, hrel⟩ := optionStep_some_right (hinfo2 ▸ hrel1 j)
            obtain ⟨hbe, hr0⟩ := cancelStep_running_rev u hrel hrun
            have h1 := h.runningAwaited j b0 hb0 hr0
            rw [ha] at h1
            have hja : a0 = j := by injection h1
            subst hja
            rw [hinfoA'] at hinfo2
            cases hinfo2
            rw [hphA'] at hrun
            cases hrun
        · intro j info hinfo hbs
          exact hbody2 j info hinfo hbs
        · intro j info hinfo hph
          exact hsettled2 j info hinfo hph
        · exact List.Pairwise.imp (fun hab => hab) htailpair
  · -- the queue is idle: the new task starts at once
    have hbf : s.busy = false := by
      revert hbusy
      cases s.busy <;> simp
    obtain ⟨hanone, hqnil⟩ := h.notBusyIdle hbf
    have hS2busyF : S2.busy = false := by rw [hS2b, hbf]
    have hkick : kick S2 = loopRun { S2 with busy := true } S2.queue := by
      rw [kick, if_neg]
      rw [hS2busyF]
      simp
    rw [hkick]
    have hq2one : S2.queue = [id] := by
      rw [hS2q, hqnil]
      rfl
    rw [hq2one]
    have hQI : QInv (loopRun
        { queue := [id], tasks := S2.tasks, busy := true
          awaiting := S2.awaiting } [id]) := by
      apply qinv_of_loopRun
      · rfl
      · intro j hj
        simp only [List.mem_singleton] at hj
        subst hj
        show ∃ info, S2.tasks j = some info ∧ info.phase = .queued
        exact ⟨_, hS2id, rfl⟩
      · exact List.nodup_singleton id
      · intro j info hinfo hrun
        have hinfo2 : S2.tasks j = some info := hinfo
        by_cases hjid : j = id
        · subst hjid
          rw [hS2id] at hinfo2
          cases hinfo2
          cases hrun
        · rw [hS2ne _ hjid] at hinfo2
          obtain ⟨b0, hb0, hrel⟩ := optionStep_some_right (hinfo2 ▸ hrel1 j)
          obtain ⟨_, hr0⟩ := cancelStep_running_rev u hrel hrun
          have h1 := h.runningAwaited j b0 hb0 hr0
          rw [hanone] at h1
          cases h1
      · intro j info hinfo hbs
        exact hbody2 j info hinfo hbs
      · intro j info hinfo hph
        exact hsettled2 j info hinfo hph
      · exact List.pairwise_singleton _ _
    rw [drain_of_qinv _ hQI]
    exact hQI

theorem qinv_enq (s : QState) (id : Nat) (u : String) (h : QInv s) :
    QInv (applyEvent s (.enq id u)) := by
  cases hfresh : s.tasks id with
  | some info =>
    rw [applyEvent_enq_dup s id u info hfresh]
    exact h
  | none =>
    rw [applyEvent_enq_fresh s id u hfresh]
    obtain ⟨hq1, hb1, ha1, hrel1, hcan1⟩ := cancelUri_spec s u
    exact qinv_enq_core s (cancelUri s u) id u h hfresh hq1 hb1 ha1 hrel1 hcan1

/-! ### Invariant preservation: cancel-by-uri -/

theorem qinv_cancelEvt (s : QState) (u : String) (h : QInv s) :
    QInv (applyEvent s (.cancelEvt u)) := by
  rw [applyEvent_cancelEvt]
  obtain ⟨hq1, hb1, ha1, hrel1, hcan1⟩ := cancelUri_spec s u
  have hbody1 : ∀ j info, (cancelUri s u).tasks j = some info →
      info.bodyStarted = true → info.phase ≠ .queued := by
    intro j info hinfo hbs
    obtain ⟨a0, ha0, hrel⟩ := optionStep_some_right (hinfo ▸ hrel1 j)
    have hbs0 : a0.bodyStarted = true := by
      rw [← cancelStep_bodyStarted u hrel]
      exact hbs
    exact cancelStep_notQueued u hrel (h.bodyStartedNotQueued j a0 ha0 hbs0)
  have hsettled1 : ∀ j info, (cancelUri s u).tasks j = some info →
      info.phase = .settled → info.canceled = true ∨ info.procDone = true := by
    intro j info hinfo hph
    obtain ⟨a0, ha0, hrel⟩ := optionStep_some_right (hinfo ▸ hrel1 j)
    rcases cancelStep_settled_rev u hrel hph with hphA | ⟨_, hcB⟩
    · rcases h.settledResolved j a0 ha0 hphA with hcA | hpA
      · exact Or.inl (cancelStep_canceled_mono u hrel hcA)
      · right
        rw [cancelStep_procDone u hrel]
        exact hpA
    · exact Or.inl hcB
  have hpairOK : ∀ x y, uriCancelOK s x y → uriCancelOK (cancelUri s u) x y :=
    fun x y hab => uriCancelOK_mono (fun a b hr => cancelStep_uri u hr)
      (fun a b hr hca => cancelStep_canceled_mono u hr hca)
      (hrel1 x) (hrel1 y) hab
  by_cases hbusy : s.busy = true
  · obtain ⟨a, ha⟩ := Option.isSome_iff_exists.mp (h.busyAwaiting hbusy)
    obtain ⟨infoA, hinfoA, hrunA⟩ := h.awaitedRunning a ha
    have hheadA := h.awaitHead a ha
    obtain ⟨infoA', hinfoA', hrelA⟩ := optionStep_some_left (hinfoA ▸ hrel1 a)
    have haw1 : (cancelUri s u).awaiting = some a := by rw [ha1]; exact ha
    cases hsq : s.queue with
    | nil =>
      rw [hsq] at hheadA
      cases hheadA
    | cons a0 tail =>
      have ha0 : a0 = a := by
        rw [hsq] at hheadA
        simpa using hheadA
      subst ha0
      have hamem : a0 ∈ s.queue := by
        rw [hsq]
        exact List.mem_cons_self a0 tail
      have htailmem : ∀ j, j ∈ tail → j ∈ s.queue := by
        intro j hj
        rw [hsq]
        exact List.mem_cons_of_mem _ hj
      have htailnodup : tail.Nodup := by
        have hn := h.nodup
        rw [hsq] at hn
        exact (List.nodup_cons.mp hn).2
      rcases hrelA with hsame | ⟨huriA, hncA, hbeA⟩
      · -- the awaited task was not canceled by this call
        have hrunA' : infoA'.phase = .running := by rw [hsame]; exact hrunA
        have hdrain : drain (cancelUri s u) = cancelUri s u := by
          apply drain_not_settled _ a0 infoA' haw1 hinfoA'
          rw [hrunA']
          intro hcontra
          cases hcontra
        rw [hdrain]
        refine ⟨?_, ?_, ?_, ?_, ?_, ?_, ?_, ?_, ?_, ?_, ?_, ?_, ?_⟩
        · intro j hj
          rw [haw1] at hj
          cases hj
          rw [hq1]
          exact hheadA
        · intro j info hinfo hrun
          obtain ⟨b0, hb0, hrel⟩ := optionStep_some_right (hinfo ▸ hrel1 j)
          obtain ⟨_, hr0⟩ := cancelStep_running_rev u hrel hrun
          rw [ha1]
          exact h.runningAwaited j b0 hb0 hr0
        · intro j hj
          rw [haw1] at hj
          cases hj
          exact ⟨infoA', hinfoA', hrunA'⟩
        · intro hf
          rw [hb1] at hf
          rw [hf] at hbusy
          cases hbusy
        · intro _
          rw [haw1]
          rfl
        · intro j hj
          rw [hq1] at hj
          obtain ⟨infoj, hinfoj⟩ :=
            Option.isSome_iff_exists.mp (h.queueTasks j hj)
          obtain ⟨infoj', hinfoj', _⟩ :=
            optionStep_some_left (hinfoj ▸ hrel1 j)
          rw [hinfoj']
          rfl
        · rw [hq1]
          exact h.nodup
        · intro j info hj hinfo
          rw [hq1] at hj
          obtain ⟨b0, hb0, hrel⟩ := optionStep_some_right (hinfo ▸ hrel1 j)
          exact cancelStep_queued u hrel (h.tailQueued j b0 hj hb0)
        · exact hbody1
        · exact hsettled1
        · intro j info hinfo hrun
          obtain ⟨b0, hb0, hrel⟩ := optionStep_some_right (hinfo ▸ hrel1 j)
          obtain ⟨hbe, hr0⟩ := cancelStep_running_rev u hrel hrun
          rw [hbe]
          exact h.runningNotCanceled j b0 hb0 hr0
        · intro j info hinfo hph hjmem
          rw [hq1] at hjmem
          obtain ⟨b0, hb0, hrel⟩ := optionStep_some_right (hinfo ▸ hrel1 j)
          rcases cancelStep_settled_rev u hrel hph with hphB | ⟨hr0, _⟩
          · exact h.settledNotQueued j b0 hb0 hphB hjmem
          · have h1 := h.runningAwaited j b0 hb0 hr0
            rw [ha] at h1
            have hja : a0 = j := by injection h1
            subst hja
            rw [hinfoA'] at hinfo
            cases hinfo
            rw [hsame, hrunA] at hph
            cases hph
        · rw [hq1]
          exact h.pairwiseUri.imp (fun hab => hpairOK _ _ hab)
      · -- the awaited task was canceled: its promise resolved, loop advances
        have hphA' : infoA'.phase = .settled := by
          rw [hbeA]
          simp [hrunA]
        have hdrain : drain (cancelUri s u) =
            loopRun { cancelUri s u with awaiting := none }
              ((cancelUri s u).queue.drop 1) :=
          drain_settled _ a0 infoA' haw1 hinfoA' hphA'
        rw [hdrain]
        have hdropq : (cancelUri s u).queue.drop 1 = tail := by
          rw [hq1, hsq]
          rfl
        rw [hdropq]
        apply qinv_of_loopRun
        · show (cancelUri s u).busy = true
          rw [hb1]
          exact hbusy
        · intro j hj
          show ∃ info, (cancelUri s u).tasks j = some info ∧
            info.phase = .queued
          obtain ⟨qi, hqi⟩ :=
            Option.isSome_iff_exists.mp (h.queueTasks j (htailmem j hj))
          have hq0 : qi.phase = .queued := by
            apply h.tailQueued j qi _ hqi
            rw [hsq]
            exact hj
          obtain ⟨qi', hqi', hrel⟩ := optionStep_some_left (hqi ▸ hrel1 j)
          exact ⟨qi', hqi', cancelStep_queued u hrel hq0⟩
        · exact htailnodup
        · intro j info hinfo hrun
          have hinfo2 : (cancelUri s u).tasks j = some info := hinfo
          obtain ⟨b0, hb0, hrel⟩ := optionStep_some_right (hinfo2 ▸ hrel1 j)
          obtain ⟨hbe, hr0⟩ := cancelStep_running_rev u hrel hrun
          have h1 := h.runningAwaited j b0 hb0 hr0
          rw [ha] at h1
          have hja : a0 = j := by injection h1
          subst hja
          rw [hinfoA'] at hinfo2
          cases hinfo2
          rw [hphA'] at hrun
          cases hrun
        · intro j info hinfo hbs
          exact hbody1 j info hinfo hbs
        · intro j info hinfo hph
          exact hsettled1 j info hinfo hph
        · have hp := h.pairwiseUri
          rw [hsq] at hp
          have hptail := List.Pairwise.of_cons hp
          exact hptail.imp (fun hab => hpairOK _ _ hab)
  · have hbf : s.busy = false := by
      revert hbusy
      cases s.busy <;> simp
    obtain ⟨hanone, hqnil⟩ := h.notBusyIdle hbf
    have hS1eq : cancelUri s u = s := by
      rw [cancelUri, hqnil]
      rfl
    rw [hS1eq, drain_of_qinv s h]
    exact h

/-! ### Invariant preservation: process completion -/

theorem qinv_complete (s : QState) (id : Nat) (h : QInv s) :
    QInv (applyEvent s (.complete id)) := by
  cases hx : s.tasks id with
  | none =>
    rw [applyEvent_complete_none s id hx]
    exact h
  | some info =>
    by_cases hguard : info.bodyStarted = true ∧ ¬info.procDone = true
    case neg =>
      rw [applyEvent_complete_stale s id info hx hguard]
      exact h
    case pos =>
      obtain ⟨hbs, hpdn⟩ := hguard
      have hpd : info.procDone = false := by
        revert hpdn
        cases info.procDone <;> simp
      have hnotqueued : info.phase ≠ .queued := h.bodyStartedNotQueued id info hx hbs
      cases hc : info.canceled with
      | true =>
        rw [applyEvent_complete_canceled s id info hx hbs hpd hc]
        have hphset : info.phase = .settled := by
          cases hph : info.phase
          · exact absurd hph hnotqueued
          · have := h.runningNotCanceled id info hx hph
            rw [hc] at this
            cases this
          · rfl
        have hifeq : (if info.phase = .running then Phase.settled
            else info.phase) = .settled := by
          rw [hphset]
          simp
        have hidnotq : id ∉ s.queue := h.settledNotQueued id info hx hphset
        have hdrain : drain (setTask s id
            { info with procDone := true
                        phase := if info.phase = .running then .settled
                                 else info.phase }) =
            setTask s id
              { info with procDone := true
                          phase := if info.phase = .running then .settled
                                   else info.phase } := by
          cases hA : s.awaiting with
          | none => exact drain_none _ hA
          | some a =>
            obtain ⟨infoA, hinfoA, hrunA⟩ := h.awaitedRunning a hA
            have hane : a ≠ id := by
              intro hEq
              rw [hEq, hx] at hinfoA
              cases hinfoA
              rw [hphset] at hrunA
              cases hrunA
            apply drain_not_settled _ a infoA
            · rw [setTask_awaiting]
              exact hA
            · rw [setTask_tasks_ne _ _ _ hane]
              exact hinfoA
            · rw [hrunA]
              intro hcontra
              cases hcontra
        rw [hdrain]
        refine ⟨?_, ?_, ?_, ?_, ?_, ?_, ?_, ?_, ?_, ?_, ?_, ?_, ?_⟩
        · intro j hj
          exact h.awaitHead j hj
        · intro j infoJ hinfoJ hrun
          by_cases hjid : j = id
          · subst hjid
            rw [setTask_tasks_self] at hinfoJ
            cases hinfoJ
            rw [hifeq] at hrun
            cases hrun
          · rw [setTask_tasks_ne _ _ _ hjid] at hinfoJ
            exact h.runningAwaited j infoJ hinfoJ hrun
        · intro j hj
          obtain ⟨infoJ, hinfoJ, hrunJ⟩ := h.awaitedRunning j hj
          have hjne : j ≠ id := by
            intro hEq
            rw [hEq, hx] at hinfoJ
            cases hinfoJ
            rw [hphset] at hrunJ
            cases hrunJ
          refine ⟨infoJ, ?_, hrunJ⟩
          rw [setTask_tasks_ne _ _ _ hjne]
          exact hinfoJ
        · intro hf
          exact h.notBusyIdle hf
        · intro hb
          exact h.busyAwaiting hb
        · intro j hj
          by_cases hjid : j = id
          · subst hjid
            exact absurd hj hidnotq
          · rw [setTask_tasks_ne _ _ _ hjid]
            exact h.queueTasks j hj
        · exact h.nodup
        · intro j infoJ hj hinfoJ
          by_cases hjid : j = id
          · subst hjid
            exact absurd (List.drop_subset 1 _ hj) hidnotq
          · rw [setTask_tasks_ne _ _ _ hjid] at hinfoJ
            exact h.tailQueued j infoJ hj hinfoJ
        · intro j infoJ hinfoJ hbsJ
          by_cases hjid : j = id
          · subst hjid
            rw [setTask_tasks_self] at hinfoJ
            cases hinfoJ
            rw [hifeq]
            intro hcontra
            cases hcontra
          · rw [setTask_tasks_ne _ _ _ hjid] at hinfoJ
            exact h.bodyStartedNotQueued j infoJ hinfoJ hbsJ
        · intro j infoJ hinfoJ hphJ
          by_cases hjid : j = id
          · subst hjid
            rw [setTask_tasks_self] at hinfoJ
            cases hinfoJ
            right
            rfl
          · rw [setTask_tasks_ne _ _ _ hjid] at hinfoJ
            exact h.settledResolved j infoJ hinfoJ hphJ
        · intro j infoJ hinfoJ hphJ
          by_cases hjid : j = id
          · subst hjid
            rw [setTask_tasks_self] at hinfoJ
            cases hinfoJ
            rw [hifeq] at hphJ
            cases hphJ
          · rw [setTask_tasks_ne _ _ _ hjid] at hinfoJ
            exact h.runningNotCanceled j infoJ hinfoJ hphJ
        · intro j infoJ hinfoJ hphJ hjmem
          by_cases hjid : j = id
          · subst hjid
            exact hidnotq hjmem
          · rw [setTask_tasks_ne _ _ _ hjid] at hinfoJ
            exact h.settledNotQueued j infoJ hinfoJ hphJ hjmem
        · apply List.Pairwise.imp_of_mem ?_ h.pairwiseUri
          intro x y hxm hym hab
          have hxne : x ≠ id := fun hEq => hidnotq (hEq ▸ hxm)
          have hyne : y ≠ id := fun hEq => hidnotq (hEq ▸ hym)
          intro ix iy hix hiy huriEq
          rw [setTask_tasks_ne _ _ _ hxne] at hix
          rw [setTask_tasks_ne _ _ _ hyne] at hiy
          exact hab ix iy hix hiy huriEq
      | false =>
        rw [applyEvent_complete_normal s id info hx hbs hpd hc]
        have hphrun : info.phase = .running := by
          cases hph : info.phase
          · exact absurd hph hnotqueued
          · rfl
          · rcases h.settledResolved id info hx hph with hcT | hpT
            · rw [hc] at hcT
              cases hcT
            · rw [hpd] at hpT
              cases hpT
        have hifeq : (if info.phase = .running then Phase.settled
            else info.phase) = .settled := by
          rw [hphrun]
          simp
        have hawait : s.awaiting = some id := h.runningAwaited id info hx hphrun
        have hbusy : s.busy = true := by
          by_contra hnb
          have hbf : s.busy = false := by
            revert hnb
            cases s.busy <;> simp
          obtain ⟨hanone, _⟩ := h.notBusyIdle hbf
          rw [hanone] at hawait
          cases hawait
        have hhead := h.awaitHead id hawait
        cases hsq : s.queue with
        | nil =>
          rw [hsq] at hhead
          cases hhead
        | cons a0 tail =>
          have ha0 : a0 = id := by
            rw [hsq] at hhead
            simpa using hhead
          subst ha0
          have hidnotintail : a0 ∉ tail := by
            have hn := h.nodup
            rw [hsq] at hn
            exact (List.nodup_cons.mp hn).1
          have htailnodup : tail.Nodup := by
            have hn := h.nodup
            rw [hsq] at hn
            exact (List.nodup_cons.mp hn).2
          have htailmem : ∀ j, j ∈ tail → j ∈ s.queue := by
            intro j hj
            rw [hsq]
            exact List.mem_cons_of_mem _ hj
          have hS1aw : (setTask s a0
              { info with procDone := true, completedNormally := true
                          phase := if info.phase = .running then .settled
                                   else info.phase }).awaiting = some a0 := by
            rw [setTask_awaiting]
            exact hawait
          have hdrain : drain (setTask s a0
              { info with procDone := true, completedNormally := true
                          phase := if info.phase = .running then .settled
                                   else info.phase }) =
              loopRun { (setTask s a0
                { info with procDone := true, completedNormally := true
                            phase := if info.phase = .running then .settled
                                     else info.phase }) with awaiting := none }
                ((setTask s a0
                  { info with procDone := true, completedNormally := true
                              phase := if info.phase = .running then .settled
                                       else info.phase }).queue.drop 1) := by
            apply drain_settled _ a0 _ hS1aw (setTask_tasks_self _ _ _)
            rw [hifeq]
          rw [hdrain]
          have hdropq : (setTask s a0
              { info with procDone := true, completedNormally := true
                          phase := if info.phase = .running then .settled
                                   else info.phase }).queue.drop 1 = tail := by
            rw [setTask_queue, hsq]
            rfl
          rw [hdropq]
          apply qinv_of_loopRun
          · exact hbusy
          · intro j hj
            have hjne : j ≠ a0 := fun hEq => hidnotintail (hEq ▸ hj)
            obtain ⟨qi, hqi⟩ :=
              Option.isSome_iff_exists.mp (h.queueTasks j (htailmem j hj))
            have hq0 : qi.phase = .queued := by
              apply h.tailQueued j qi _ hqi
              rw [hsq]
              exact hj
            refine ⟨qi, ?_, hq0⟩
            show (setTask s a0
              { info with procDone := true, completedNormally := true
                          phase := if info.phase = .running then .settled
                                   else info.phase }).tasks j = some qi
            rw [setTask_tasks_ne _ _ _ hjne]
            exact hqi
          · exact htailnodup
          · intro j infoJ hinfoJ hrunJ
            have hinfo2 : (setTask s a0
                { info with procDone := true, completedNormally := true
                            phase := if info.phase = .running then .settled
                                     else info.phase }).tasks j = some infoJ := hinfoJ
            by_cases hjid : j = a0
            · subst hjid
              rw [setTask_tasks_self] at hinfo2
              cases hinfo2
              rw [hifeq] at hrunJ
              cases hrunJ
            · rw [setTask_tasks_ne _ _ _ hjid] at hinfo2
              have h1 := h.runningAwaited j infoJ hinfo2 hrunJ
              rw [hawait] at h1
              have : a0 = j := by injection h1
              exact absurd this.symm hjid
          · intro j infoJ hinfoJ hbsJ
            have hinfo2 : (setTask s a0
                { info with procDone := true, completedNormally := true
                            phase := if info.phase = .running then .settled
                                     else info.phase }).tasks j = some infoJ := hinfoJ
            by_cases hjid : j = a0
            · subst hjid
              rw [setTask_tasks_self] at hinfo2
              cases hinfo2
              rw [hifeq]
              intro hcontra
              cases hcontra
            · rw [setTask_tasks_ne _ _ _ hjid] at hinfo2
              exact h.bodyStartedNotQueued j infoJ hinfo2 hbsJ
          · intro j infoJ hinfoJ hphJ
            have hinfo2 : (setTask s a0
                { info with procDone := true, completedNormally := true
                            phase := if info.phase = .running then .settled
                                     else info.phase }).tasks j = some infoJ := hinfoJ
            by_cases hjid : j = a0
            · subst hjid
              rw [setTask_tasks_self] at hinfo2
              cases hinfo2
              right
              rfl
            · rw [setTask_tasks_ne _ _ _ hjid] at hinfo2
              exact h.settledResolved j infoJ hinfo2 hphJ
          · have hp := h.pairwiseUri
            rw [hsq] at hp
            have hptail := List.Pairwise.of_cons hp
            apply List.Pairwise.imp_of_mem ?_ hptail
            intro x y hxm hym hab
            have hxne : x ≠ a0 := fun hEq => hidnotintail (hEq ▸ hxm)
            have hyne : y ≠ a0 := fun hEq => hidnotintail (hEq ▸ hym)
            intro ix iy hix hiy huriEq
            have hix2 : s.tasks x = some ix := by
              rw [← setTask_tasks_ne s a0
                { info with
                  procDone := true
                  completedNormally := true
                  phase := if info.phase = .running then .settled
                           else info.phase } hxne]
              exact hix
            have hiy2 : s.tasks y = some iy := by
              rw [← setTask_tasks_ne s a0
                { info with
                  procDone := true
                  completedNormally := true
                  phase := if info.phase = .running then .settled
                           else info.phase } hyne]
              exact hiy
            exact hab ix iy hix2 hiy2 huriEq

/-! ### Pointwise task evolution through the loop -/

theorem loopRun_cons_running (s : QState) (id : Nat) (rest : List Nat)
    (info : TaskInfo) (h : s.tasks id = some info)
    (hph : info.phase = .running) :
    loopRun s (id :: rest) =
      { s with queue := id :: rest, awaiting := some id } := by
  simp [loopRun, h, hph]

theorem loopRun_cons_settled (s : QState) (id : Nat) (rest : List Nat)
    (info : TaskInfo) (h : s.tasks id = some info)
    (hph : info.phase = .settled) :
    loopRun s (id :: rest) = loopRun s rest := by
  simp [loopRun, h, hph]

theorem loopRun_tasks_step (l : List Nat) : ∀ (s : QState) (j : Nat),
    optionStep loopStep (s.tasks j) ((loopRun s l).tasks j) := by
  induction l with
  | nil =>
    intro s j
    exact optionStep_refl loopStep_refl _
  | cons id rest ih =>
    intro s j
    cases hx : s.tasks id with
    | none =>
      rw [loopRun_cons_none s id rest hx]
      exact ih s j
    | some info =>
      cases hph : info.phase with
      | queued =>
        cases hc : info.canceled with
        | true =>
          rw [loopRun_cons_queued_canceled s id rest info hx hph hc]
          have hstep1 : optionStep loopStep (s.tasks j)
              ((setTask s id { info with phase := .settled }).tasks j) := by
            by_cases hj : j = id
            · subst hj
              rw [hx, setTask_tasks_self]
              exact Or.inr (Or.inl ⟨hph, hc, rfl⟩)
            · rw [setTask_tasks_ne _ _ _ hj]
              exact optionStep_refl loopStep_refl _
          exact @optionStep_trans loopStep
            (fun a b c h1 h2 => loopStep_trans h1 h2) _ _ _ hstep1 (ih _ j)
        | false =>
          rw [loopRun_cons_queued_active s id rest info hx hph hc]
          by_cases hj : j = id
          · subst hj
            rw [hx, setTask_tasks_self]
            exact Or.inr (Or.inr ⟨hph, hc, rfl⟩)
          · rw [setTask_tasks_ne _ _ _ hj]
            exact optionStep_refl loopStep_refl _
      | running =>
        rw [loopRun_cons_running s id rest info hx hph]
        exact optionStep_refl loopStep_refl _
      | settled =>
        rw [loopRun_cons_settled s id rest info hx hph]
        exact ih s j

theorem drain_tasks_step (s : QState) (j : Nat) :
    optionStep loopStep (s.tasks j) ((drain s).tasks j) := by
  cases ha : s.awaiting with
  | none =>
    rw [drain_none s ha]
    exact optionStep_refl loopStep_refl _
  | some a =>
    cases ht : s.tasks a with
    | none =>
      have : drain s = s := by simp [drain, ha, ht]
      rw [this]
      exact optionStep_refl loopStep_refl _
    | some info =>
      by_cases hph : info.phase = .settled
      · rw [drain_settled s a info ha ht hph]
        exact loopRun_tasks_step (s.queue.drop 1) { s with awaiting := none } j
      · rw [drain_not_settled s a info ha ht hph]
        exact optionStep_refl loopStep_refl _

theorem kick_tasks_step (s : QState) (j : Nat) :
    optionStep loopStep (s.tasks j) ((kick s).tasks j) := by
  by_cases hb : s.busy = true
  · rw [kick, if_pos hb]
    exact optionStep_refl loopStep_refl _
  · rw [kick, if_neg hb]
    exact loopRun_tasks_step s.queue { s with busy := true } j

theorem loopRun_keeps_active (l : List Nat) : ∀ (s : QState) (id : Nat)
    (info : TaskInfo), s.tasks id = some info → info.phase = .queued →
    info.canceled = false → id ∈ l →
    ∃ info', (loopRun s l).tasks id = some info' ∧
      id ∈ (loopRun s l).queue ∧ info'.uri = info.uri ∧
      info'.canceled = false ∧
      info'.completedNormally = info.completedNormally := by
  induction l with
  | nil =>
    intro s id info _ _ _ hmem
    cases hmem
  | cons id0 rest ih =>
    intro s id info hinfo hph hc hmem
    by_cases hid0 : id0 = id
    · subst hid0
      rw [loopRun_cons_queued_active s id0 rest info hinfo hph hc]
      refine ⟨{ info with phase := .running, bodyStarted := true },
        setTask_tasks_self _ _ _, ?_, rfl, hc, rfl⟩
      show id0 ∈ id0 :: rest
      exact List.mem_cons_self id0 rest
    · have hmem' : id ∈ rest := by
        rcases List.mem_cons.mp hmem with heq | hm
        · exact absurd heq.symm hid0
        · exact hm
      cases hx : s.tasks id0 with
      | none =>
        rw [loopRun_cons_none s id0 rest hx]
        exact ih s id info hinfo hph hc hmem'
      | some info0 =>
        cases hph0 : info0.phase with
        | queued =>
          cases hc0 : info0.canceled with
          | true =>
            rw [loopRun_cons_queued_canceled s id0 rest info0 hx hph0 hc0]
            apply ih _ id info _ hph hc hmem'
            rw [setTask_tasks_ne _ _ _ (fun hEq => hid0 hEq.symm)]
            exact hinfo
          | false =>
            rw [loopRun_cons_queued_active s id0 rest info0 hx hph0 hc0]
            refine ⟨info, ?_, ?_, rfl, hc, rfl⟩
            · rw [setTask_tasks_ne _ _ _ (fun hEq => hid0 hEq.symm)]
              exact hinfo
            · show id ∈ id0 :: rest
              exact List.mem_cons_of_mem _ hmem'
        | running =>
          rw [loopRun_cons_running s id0 rest info0 hx hph0]
          exact ⟨info, hinfo, List.mem_cons_of_mem _ hmem', rfl, hc, rfl⟩
        | settled =>
          rw [loopRun_cons_settled s id0 rest info0 hx hph0]
          exact ih s id info hinfo hph hc hmem'

/-! ### Event-level monotonicity -/

theorem applyEvent_canceled_mono (s : QState) (e : QEvent) (j : Nat)
    (info : TaskInfo) (hj : s.tasks j = some info) (hc : info.canceled = true) :
    ∃ info', (applyEvent s e).tasks j = some info' ∧ info'.canceled = true ∧
      info'.completedNormally = info.completedNormally ∧
      info'.uri = info.uri := by
  cases e with
  | enq id u =>
    cases hx : s.tasks id with
    | some infoX =>
      rw [applyEvent_enq_dup s id u infoX hx]
      exact ⟨info, hj, hc, rfl, rfl⟩
    | none =>
      rw [applyEvent_enq_fresh s id u hx]
      have hjid : j ≠ id := by
        intro hEq
        rw [hEq, hx] at hj
        cases hj
      obtain ⟨_, _, _, hrel1, _⟩ := cancelUri_spec s u
      obtain ⟨info1, hinfo1, hrelJ⟩ := optionStep_some_left (hj ▸ hrel1 j)
      have hbe := cancelStep_canceled_of u hrelJ hc
      rw [hbe] at hinfo1
      have hS2task :
          ({ cancelUri s u with
             queue := (cancelUri s u).queue ++ [id]
             tasks := fun j' =>
               if j' = id then
                 some { uri := u, canceled := false, phase := .queued
                        bodyStarted := false, procDone := false
                        completedNormally := false }
               else (cancelUri s u).tasks j' } : QState).tasks j = some info := by
        simp [hjid]
        exact hinfo1
      obtain ⟨info2, hinfo2, hrelK⟩ := optionStep_some_left (hS2task ▸ kick_tasks_step _ j)
      obtain ⟨info3, hinfo3, hrelD⟩ := optionStep_some_left (hinfo2 ▸ drain_tasks_step _ j)
      refine ⟨info3, hinfo3, ?_, ?_, ?_⟩
      · rw [loopStep_canceled hrelD, loopStep_canceled hrelK]
        exact hc
      · rw [loopStep_completed hrelD, loopStep_completed hrelK]
      · rw [loopStep_uri hrelD, loopStep_uri hrelK]
  | cancelEvt u =>
    rw [applyEvent_cancelEvt]
    obtain ⟨_, _, _, hrel1, _⟩ := cancelUri_spec s u
    obtain ⟨info1, hinfo1, hrelJ⟩ := optionStep_some_left (hj ▸ hrel1 j)
    have hbe := cancelStep_canceled_of u hrelJ hc
    rw [hbe] at hinfo1
    obtain ⟨info2, hinfo2, hrelD⟩ := optionStep_some_left (hinfo1 ▸ drain_tasks_step _ j)
    refine ⟨info2, hinfo2, ?_, ?_, ?_⟩
    · rw [loopStep_canceled hrelD]
      exact hc
    · rw [loopStep_completed hrelD]
    · rw [loopStep_uri hrelD]
  | complete id =>
    cases hx : s.tasks id with
    | none =>
      rw [applyEvent_complete_none s id hx]
      exact ⟨info, hj, hc, rfl, rfl⟩
    | some infoC =>
      by_cases hguard : infoC.bodyStarted = true ∧ ¬infoC.procDone = true
      · obtain ⟨hbs, hpdn⟩ := hguard
        have hpd : infoC.procDone = false := by
          revert hpdn
          cases infoC.procDone <;> simp
        by_cases hjid : j = id
        · subst hjid
          rw [hx] at hj
          have hEq : infoC = info := by injection hj
          subst hEq
          rw [applyEvent_complete_canceled s j infoC hx hbs hpd hc]
          have hset : (setTask s j
              { infoC with procDone := true
                           phase := if infoC.phase = .running then .settled
                                    else infoC.phase }).tasks j =
              some { infoC with procDone := true
                                phase := if infoC.phase = .running then .settled
                                         else infoC.phase } :=
            setTask_tasks_self _ _ _
          obtain ⟨info2, hinfo2, hrelD⟩ :=
            optionStep_some_left (hset ▸ drain_tasks_step _ j)
          refine ⟨info2, hinfo2, ?_, ?_, ?_⟩
          · rw [loopStep_canceled hrelD]
            exact hc
          · rw [loopStep_completed hrelD]
          · rw [loopStep_uri hrelD]
        · cases hcC : infoC.canceled with
          | true =>
            rw [applyEvent_complete_canceled s id infoC hx hbs hpd hcC]
            have hset : (setTask s id
                { infoC with procDone := true
                             phase := if infoC.phase = .running then .settled
                                      else infoC.phase }).tasks j = some info := by
              rw [setTask_tasks_ne _ _ _ hjid]
              exact hj
            obtain ⟨info2, hinfo2, hrelD⟩ :=
              optionStep_some_left (hset ▸ drain_tasks_step _ j)
            refine ⟨info2, hinfo2, ?_, ?_, ?_⟩
            · rw [loopStep_canceled hrelD]
              exact hc
            · rw [loopStep_completed hrelD]
            · rw [loopStep_uri hrelD]
          | false =>
            rw [applyEvent_complete_normal s id infoC hx hbs hpd hcC]
            have hset : (setTask s id
                { infoC with procDone := true, completedNormally := true
                             phase := if infoC.phase = .running then .settled
                                      else infoC.phase }).tasks j = some info := by
              rw [setTask_tasks_ne _ _ _ hjid]
              exact hj
            obtain ⟨info2, hinfo2, hrelD⟩ :=
              optionStep_some_left (hset ▸ drain_tasks_step _ j)
            refine ⟨info2, hinfo2, ?_, ?_, ?_⟩
            · rw [loopStep_canceled hrelD]
              exact hc
            · rw [loopStep_completed hrelD]
            · rw [loopStep_uri hrelD]
      · rw [applyEvent_complete_stale s id infoC hx hguard]
        exact ⟨info, hj, hc, rfl, rfl⟩

theorem applyEvent_enq_none (s : QState) (id : Nat) (u : String) (j : Nat)
    (hne : j ≠ id) (h0 : s.tasks j = none) :
    (applyEvent s (.enq id u)).tasks j = none := by
  cases hx : s.tasks id with
  | some infoX =>
    rw [applyEvent_enq_dup s id u infoX hx]
    exact h0
  | none =>
    rw [applyEvent_enq_fresh s id u hx]
    obtain ⟨_, _, _, hrel1, _⟩ := cancelUri_spec s u
    have h1 : (cancelUri s u).tasks j = none :=
      optionStep_none_left (h0 ▸ hrel1 j)
    have hS2task :
        ({ cancelUri s u with
           queue := (cancelUri s u).queue ++ [id]
           tasks := fun j' =>
             if j' = id then
               some { uri := u, canceled := false, phase := .queued
                      bodyStarted := false, procDone := false
                      completedNormally := false }
             else (cancelUri s u).tasks j' } : QState).tasks j = none := by
      simp [hne]
      exact h1
    have h2 := optionStep_none_left (hS2task ▸ kick_tasks_step _ j)
    exact optionStep_none_left (h2 ▸ drain_tasks_step _ j)

theorem enq_dooms (s : QState) (id : Nat) (u : String) (idP : Nat)
    (infoP : TaskInfo) (hfresh : s.tasks id = none)
    (hP : s.tasks idP = some infoP) (huriP : infoP.uri = u)
    (hin : idP ∈ s.queue) :
    ∃ infoP', (applyEvent s (.enq id u)).tasks idP = some infoP' ∧
      infoP'.canceled = true ∧
      infoP'.completedNormally = infoP.completedNormally := by
  rw [applyEvent_enq_fresh s id u hfresh]
  have hne : idP ≠ id := by
    intro hEq
    rw [hEq, hfresh] at hP
    cases hP
  obtain ⟨_, _, _, hrel1, hcan1⟩ := cancelUri_spec s u
  obtain ⟨info1, hinfo1, hcanc1, _⟩ := hcan1 idP hin infoP hP huriP
  obtain ⟨info1b, hinfo1b, hrelJ⟩ := optionStep_some_left (hP ▸ hrel1 idP)
  have hsame : info1b = info1 := by
    rw [hinfo1] at hinfo1b
    injection hinfo1b with hEq
    exact hEq.symm
  subst hsame
  have hS2task :
      ({ cancelUri s u with
         queue := (cancelUri s u).queue ++ [id]
         tasks := fun j' =>
           if j' = id then
             some { uri := u, canceled := false, phase := .queued
                    bodyStarted := false, procDone := false
                    completedNormally := false }
           else (cancelUri s u).tasks j' } : QState).tasks idP = some info1b := by
    simp [hne]
    exact hinfo1
  obtain ⟨info2, hinfo2, hrelK⟩ := optionStep_some_left (hS2task ▸ kick_tasks_step _ idP)
  obtain ⟨info3, hinfo3, hrelD⟩ := optionStep_some_left (hinfo2 ▸ drain_tasks_step _ idP)
  refine ⟨info3, hinfo3, ?_, ?_⟩
  · rw [loopStep_canceled hrelD, loopStep_canceled hrelK]
    exact hcanc1
  · rw [loopStep_completed hrelD, loopStep_completed hrelK,
      cancelStep_completed u hrelJ]

theorem canceled_stays (es : List QEvent) : ∀ (s : QState) (idP : Nat)
    (infoP : TaskInfo), s.tasks idP = some infoP → infoP.canceled = true →
    ∃ infoP', (es.foldl applyEvent s).tasks idP = some infoP' ∧
      infoP'.canceled = true ∧
      infoP'.completedNormally = infoP.completedNormally := by
  induction es with
  | nil =>
    intro s idP infoP hP hc
    exact ⟨infoP, hP, hc, rfl⟩
  | cons e rest ih =>
    intro s idP infoP hP hc
    rw [List.foldl_cons]
    obtain ⟨info1, h1, hc1, hcm1, _⟩ := applyEvent_canceled_mono s e idP infoP hP hc
    obtain ⟨info2, h2, hc2, hcm2⟩ := ih (applyEvent s e) idP info1 h1 hc1
    exact ⟨info2, h2, hc2, by rw [hcm2, hcm1]⟩

theorem enq_fresh_state (s : QState) (id : Nat) (u : String) (h : QInv s)
    (hfresh : s.tasks id = none) :
    ∃ info, (applyEvent s (.enq id u)).tasks id = some info ∧
      info.uri = u ∧ info.canceled = false ∧
      info.completedNormally = false ∧
      id ∈ (applyEvent s (.enq id u)).queue := by
  rw [applyEvent_enq_fresh s id u hfresh]
  obtain ⟨hq1, hb1, ha1, hrel1, hcan1⟩ := cancelUri_spec s u
  set S2 : QState :=
    { cancelUri s u with
      queue := (cancelUri s u).queue ++ [id]
      tasks := fun j =>
        if j = id then
          some { uri := u, canceled := false, phase := .queued
                 bodyStarted := false, procDone := false
                 completedNormally := false }
        else (cancelUri s u).tasks j } with hS2
  have hS2q : S2.queue = s.queue ++ [id] := by
    rw [hS2]
    show (cancelUri s u).queue ++ [id] = s.queue ++ [id]
    rw [hq1]
  have hS2b : S2.busy = s.busy := by rw [hS2]; exact hb1
  have hS2a : S2.awaiting = s.awaiting := by rw [hS2]; exact ha1
  have hS2id : S2.tasks id =
      some { uri := u, canceled := false, phase := .queued
             bodyStarted := false, procDone := false
             completedNormally := false } := by
    rw [hS2]
    simp
  have hS2ne : ∀ j, j ≠ id → S2.tasks j = (cancelUri s u).tasks j := by
    intro j hj
    rw [hS2]
    simp [hj]
  have hidnotmem : id ∉ s.queue := by
    intro hmem
    have hsome := h.queueTasks id hmem
    rw [hfresh] at hsome
    simp at hsome
  by_cases hbusy : s.busy = true
  · have hS2bt : S2.busy = true := by rw [hS2b]; exact hbusy
    have hkick : kick S2 = S2 := by rw [kick, if_pos hS2bt]
    rw [hkick]
    obtain ⟨a, ha⟩ := Option.isSome_iff_exists.mp (h.busyAwaiting hbusy)
    obtain ⟨infoA, hinfoA, hrunA⟩ := h.awaitedRunning a ha
    have hheadA := h.awaitHead a ha
    have hS2awA : S2.awaiting = some a := by rw [hS2a]; exact ha
    cases hsq : s.queue with
    | nil =>
      rw [hsq] at hheadA
      cases hheadA
    | cons a0 tail =>
      have ha0 : a0 = a := by
        rw [hsq] at hheadA
        simpa using hheadA
      subst ha0
      have hamem : a0 ∈ s.queue := by
        rw [hsq]
        exact List.mem_cons_self a0 tail
      have hane : a0 ≠ id := fun hEq => hidnotmem (hEq ▸ hamem)
      have hS2taskA : S2.tasks a0 = (cancelUri s u).tasks a0 := hS2ne a0 hane
      obtain ⟨infoA', hinfoA', hrelA⟩ := optionStep_some_left (hinfoA ▸ hrel1 a0)
      rcases hrelA with hsame | ⟨_, _, hbeA⟩
      · have hrunA' : infoA'.phase = .running := by rw [hsame]; exact hrunA
        have hdrain : drain S2 = S2 := by
          apply drain_not_settled S2 a0 infoA' hS2awA
            (by rw [hS2taskA]; exact hinfoA')
          rw [hrunA']
          intro hcontra
          cases hcontra
        rw [hdrain]
        refine ⟨_, hS2id, rfl, rfl, rfl, ?_⟩
        rw [hS2q]
        exact List.mem_append_right _ (List.mem_singleton.mpr rfl)
      · have hphA' : infoA'.phase = .settled := by
          rw [hbeA]
          simp [hrunA]
        have hdrain : drain S2 =
            loopRun { S2 with awaiting := none } (S2.queue.drop 1) :=
          drain_settled S2 a0 infoA' hS2awA
            (by rw [hS2taskA]; exact hinfoA') hphA'
        rw [hdrain]
        have hdropq : S2.queue.drop 1 = tail ++ [id] := by
          rw [hS2q, hsq]
          rfl
        rw [hdropq]
        have htid : ({ S2 with awaiting := none } : QState).tasks id =
            some { uri := u, canceled := false, phase := .queued
                   bodyStarted := false, procDone := false
                   completedNormally := false } := hS2id
        obtain ⟨info', ht', hm', hu', hc', hn'⟩ :=
          loopRun_keeps_active (tail ++ [id]) { S2 with awaiting := none }
            id _ htid rfl rfl
            (List.mem_append_right _ (List.mem_singleton.mpr rfl))
        exact ⟨info', ht', hu', hc', hn', hm'⟩
  · have hbf : s.busy = false := by
      revert hbusy
      cases s.busy <;> simp
    obtain ⟨_, hqnil⟩ := h.notBusyIdle hbf
    have hS2busyF : S2.busy = false := by rw [hS2b, hbf]
    have hkick : kick S2 = loopRun { S2 with busy := true } S2.queue := by
      rw [kick, if_neg]
      rw [hS2busyF]
      simp
    rw [hkick]
    have hq2one : S2.queue = [id] := by
      rw [hS2q, hqnil]
      rfl
    rw [hq2one]
    have htid : ({ queue := [id], tasks := S2.tasks, busy := true,
                   awaiting := S2.awaiting } : QState).tasks id =
        some { uri := u, canceled := false, phase := .queued
               bodyStarted := false, procDone := false
               completedNormally := false } := hS2id
    rw [loopRun_cons_queued_active _ id [] _ htid rfl rfl]
    have hrun : (setTask
        { queue := [id], tasks := S2.tasks, busy := true,
          awaiting := some id } id
        { uri := u, canceled := false, phase := .running
          bodyStarted := true, procDone := false
          completedNormally := false }).tasks id =
        some { uri := u, canceled := false, phase := .running
               bodyStarted := true, procDone := false
               completedNormally := false } := setTask_tasks_self _ _ _
    have hdrain : drain (setTask
        { queue := [id], tasks := S2.tasks, busy := true,
          awaiting := some id } id
        { uri := u, canceled := false, phase := .running
          bodyStarted := true, procDone := false
          completedNormally := false }) = setTask
        { queue := [id], tasks := S2.tasks, busy := true,
          awaiting := some id } id
        { uri := u, canceled := false, phase := .running
          bodyStarted := true, procDone := false
          completedNormally := false } := by
      apply drain_not_settled _ id _ (setTask_awaiting _ _ _) hrun
      intro hcontra
      cases hcontra
    refine ⟨{ uri := u, canceled := false, phase := .running
              bodyStarted := true, procDone := false
              completedNormally := false }, ?_, rfl, rfl, rfl, ?_⟩
    · rw [hdrain]
      exact hrun
    · rw [hdrain, setTask_queue]
      exact List.mem_singleton.mpr rfl

/-! ### The invariant holds in every reachable state -/

theorem qinv_init : QInv initQState := by
  refine ⟨?_, ?_, ?_, ?_, ?_, ?_, ?_, ?_, ?_, ?_, ?_, ?_, ?_⟩
  · intro id hid
    cases hid
  · intro id info hinfo _
    cases hinfo
  · intro id hid
    cases hid
  · exact fun _ => ⟨rfl, rfl⟩
  · intro hb
    cases hb
  · intro id hid
    cases hid
  · exact List.nodup_nil
  · intro id info hid _
    cases hid
  · intro id info hinfo _
    cases hinfo
  · intro id info hinfo _
    cases hinfo
  · intro id info hinfo _
    cases hinfo
  · intro id info hinfo _
    cases hinfo
  · exact List.Pairwise.nil

theorem qinv_applyEvent (s : QState) (e : QEvent) (h : QInv s) :
    QInv (applyEvent s e) := by
  cases e with
  | enq id u => exact qinv_enq s id u h
  | cancelEvt u => exact qinv_cancelEvt s u h
  | complete id => exact qinv_complete s id h

theorem qinv_foldl (es : List QEvent) : ∀ (s : QState), QInv s →
    QInv (es.foldl applyEvent s) := by
  induction es with
  | nil =>
    intro s h
    exact h
  | cons e rest ih =>
    intro s h
    rw [List.foldl_cons]
    exact ih _ (qinv_applyEvent s e h)

theorem qinv_runEvents (es : List QEvent) : QInv (runEvents es) :=
  qinv_foldl es initQState qinv_init

/-! ### A block of same-uri enqueues dooms all but the last -/

theorem block_main (ids : List Nat) : ∀ (s : QState) (u : String),
    QInv s → ids.Nodup → (∀ i, i ∈ ids → s.tasks i = none) →
    ∀ i, i ∈ ids.dropLast →
    ∃ info, ((enqBlock ids u).foldl applyEvent s).tasks i = some info ∧
      info.canceled = true ∧ info.completedNormally = false := by
  induction ids with
  | nil =>
    intro s u _ _ _ i hi
    cases hi
  | cons id0 ids' ih =>
    intro s u hQ hnd hfr i hi
    cases ids' with
    | nil =>
      simp at hi
    | cons id1 rest1 =>
      have hdl : (id0 :: id1 :: rest1).dropLast =
          id0 :: (id1 :: rest1).dropLast := rfl
      rw [hdl] at hi
      have hfr0 : s.tasks id0 = none := hfr id0 (List.mem_cons_self _ _)
      have henqb : enqBlock (id0 :: id1 :: rest1) u =
          QEvent.enq id0 u :: enqBlock (id1 :: rest1) u := rfl
      rw [henqb, List.foldl_cons]
      have hQ1 : QInv (applyEvent s (QEvent.enq id0 u)) := qinv_enq s id0 u hQ
      obtain ⟨hnotmem0, hnd'⟩ := List.nodup_cons.mp hnd
      have hfr1 : ∀ j, j ∈ id1 :: rest1 →
          (applyEvent s (QEvent.enq id0 u)).tasks j = none := by
        intro j hj
        have hne : j ≠ id0 := fun hEq => hnotmem0 (hEq ▸ hj)
        exact applyEvent_enq_none s id0 u j hne
          (hfr j (List.mem_cons_of_mem _ hj))
      rcases List.mem_cons.mp hi with hEq | hi'
      · subst hEq
        obtain ⟨info0, ht0, hu0, hc0, hn0, hq0⟩ :=
          enq_fresh_state s i u hQ hfr0
        have henqb2 : enqBlock (id1 :: rest1) u =
            QEvent.enq id1 u :: enqBlock rest1 u := rfl
        rw [henqb2, List.foldl_cons]
        have hfr1one : (applyEvent s (QEvent.enq i u)).tasks id1 = none :=
          hfr1 id1 (List.mem_cons_self _ _)
        obtain ⟨info0', ht0', hc0', hn0'⟩ :=
          enq_dooms (applyEvent s (QEvent.enq i u)) id1 u i info0
            hfr1one ht0 hu0 hq0
        obtain ⟨info'', ht'', hc'', hn''⟩ :=
          canceled_stays (enqBlock rest1 u)
            (applyEvent (applyEvent s (QEvent.enq i u)) (QEvent.enq id1 u))
            i info0' ht0' hc0'
        refine ⟨info'', ht'', hc'', ?_⟩
        rw [hn'', hn0', hn0]
      · exact ih (applyEvent s (QEvent.enq id0 u)) u hQ1 hnd' hfr1 i hi'

/-! ### In a pairwise-compatible queue at most one element passes the filter -/

theorem pairwise_filter_le_one {α : Type} (R : α → α → Prop) (p : α → Bool)
    (l : List α) (hp : l.Pairwise R)
    (h : ∀ a b, R a b → p a = true → p b = true → False) :
    (l.filter p).length ≤ 1 := by
  induction l with
  | nil => simp
  | cons a t ih =>
    rw [List.pairwise_cons] at hp
    obtain ⟨ha, ht⟩ := hp
    cases hpa : p a with
    | false =>
      have hfc : List.filter p (a :: t) = List.filter p t := by
        simp [List.filter_cons, hpa]
      rw [hfc]
      exact ih ht
    | true =>
      have hfc : List.filter p (a :: t) = a :: List.filter p t := by
        simp [List.filter_cons, hpa]
      have hnil : t.filter p = [] := by
        apply List.eq_nil_iff_forall_not_mem.mpr
        intro b hb
        obtain ⟨hbt, hpb⟩ := List.mem_filter.mp hb
        exact h a b (ha b hbt) hpa hpb
      rw [hfc, hnil]
      simp

/-- C1: `enqueue` first cancels every queued/running task that shares the
new task's uri and only then appends the new one
(`this.cancel(task.uri); this.tasks.push(task)`, taskQueue.ts lines 95-97).
Consequently (i) after any enqueue, every previously queued task with the
same uri is canceled; (ii) in every reachable state at most one
non-canceled task per uri is pending or running; and (iii) over any
consecutive block of enqueues sharing one uri (the ids being fresh), every
task of the block except the last ends the trace canceled and never
completes normally — only the last-enqueued task's body can complete
normally. -/
theorem claim_C1 :
    (∀ (s : QState) (id : Nat) (u : String) (idP : Nat) (infoP : TaskInfo),
      s.tasks id = none → idP ∈ s.queue → s.tasks idP = some infoP →
      infoP.uri = u →
      ∃ infoP', (applyEvent s (.enq id u)).tasks idP = some infoP' ∧
        infoP'.canceled = true) ∧
    (∀ (es : List QEvent) (u : String),
      nonCanceledCount (runEvents es) u ≤ 1) ∧
    (∀ (pre : List QEvent) (ids : List Nat) (u : String)
      (rest : List QEvent),
      ids.Nodup → (∀ i, i ∈ ids → (runEvents pre).tasks i = none) →
      ∀ i, i ∈ ids.dropLast →
      ∃ info,
        (runEvents (pre ++ enqBlock ids u ++ rest)).tasks i = some info ∧
        info.canceled = true ∧ info.completedNormally = false) := by
  refine ⟨?_, ?_, ?_⟩
  · intro s id u idP infoP hfresh hin hP huriP
    obtain ⟨infoP', h1, h2, _⟩ := enq_dooms s id u idP infoP hfresh hP huriP hin
    exact ⟨infoP', h1, h2⟩
  · intro es u
    have hQ := qinv_runEvents es
    show (((runEvents es).queue.filter (fun id =>
      match (runEvents es).tasks id with
      | some info => info.uri = u && !info.canceled
      | none => false))).length ≤ 1
    apply pairwise_filter_le_one (uriCancelOK (runEvents es)) _ _
      hQ.pairwiseUri
    intro a b hab hpa hpb
    cases hta : (runEvents es).tasks a with
    | none =>
      rw [hta] at hpa
      simp at hpa
    | some ia =>
      rw [hta] at hpa
      simp at hpa
      cases htb : (runEvents es).tasks b with
      | none =>
        rw [htb] at hpb
        simp at hpb
      | some ib =>
        rw [htb] at hpb
        simp at hpb
        have huriEq : ia.uri = ib.uri := by
          rw [hpa.1, hpb.1]
        have hcontra := hab ia ib hta htb huriEq
        rw [hpa.2] at hcontra
        cases hcontra
  · intro pre ids u rest hnd hfr i hi
    have hsplit : runEvents (pre ++ enqBlock ids u ++ rest) =
        rest.foldl applyEvent
          ((enqBlock ids u).foldl applyEvent (runEvents pre)) := by
      show (pre ++ enqBlock ids u ++ rest).foldl applyEvent initQState = _
      rw [List.foldl_append, List.foldl_append]
      rfl
    rw [hsplit]
    obtain ⟨info1, ht1, hc1, hn1⟩ :=
      block_main ids (runEvents pre) u (qinv_runEvents pre) hnd hfr i hi
    obtain ⟨info2, ht2, hc2, hn2⟩ :=
      canceled_stays rest ((enqBlock ids u).foldl applyEvent (runEvents pre))
        i info1 ht1 hc1
    refine ⟨info2, ht2, hc2, ?_⟩
    rw [hn2, hn1]

theorem claim_C1_witness :
    ([0, 1] : List Nat).Nodup ∧
    (0 : Nat) ∈ ([0, 1] : List Nat).dropLast ∧
    ∃ info,
      (runEvents ([] ++ enqBlock [0, 1] "file:///a.rb" ++
        [QEvent.complete 0, QEvent.complete 1])).tasks 0 = some info ∧
      info.canceled = true ∧ info.completedNormally = false :=
  ⟨by decide, by decide,
    claim_C1.2.2 [] [0, 1] "file:///a.rb"
      [QEvent.complete 0, QEvent.complete 1] (by decide)
      (fun _ _ => rfl) 0 (by decide)⟩

/-- C2: the processing loop runs at most one task body at a time
(taskQueue.ts lines 111-135): (i) `kick()` is a no-op when re-entered
while busy (the `if (this.busy) return` guard); (ii) in every reachable
state the loop only ever awaits the task at the head of the queue, so
execution is strictly FIFO; and (iii) in every reachable state at most
one task is in the running phase — two running tasks are the same task. -/
theorem claim_C2 :
    (∀ s : QState, s.busy = true → kick s = s) ∧
    (∀ (es : List QEvent) (id : Nat),
      (runEvents es).awaiting = some id →
      (runEvents es).queue.head? = some id) ∧
    (∀ (es : List QEvent) (i j : Nat) (infoI infoJ : TaskInfo),
      (runEvents es).tasks i = some infoI → infoI.phase = .running →
      (runEvents es).tasks j = some infoJ → infoJ.phase = .running →
      i = j) := by
  refine ⟨?_, ?_, ?_⟩
  · intro s h
    rw [kick, if_pos h]
  · intro es id h
    exact (qinv_runEvents es).awaitHead id h
  · intro es i j infoI infoJ hI hrI hJ hrJ
    have h1 := (qinv_runEvents es).runningAwaited i infoI hI hrI
    have h2 := (qinv_runEvents es).runningAwaited j infoJ hJ hrJ
    rw [h1] at h2
    exact Option.some_inj.mp h2

theorem claim_C2_witness :
    (runEvents [QEvent.enq 0 "file:///a.rb"]).awaiting = some 0 ∧
    (runEvents [QEvent.enq 0 "file:///a.rb"]).queue.head? = some 0 :=
  ⟨by decide, claim_C2.2.1 [QEvent.enq 0 "file:///a.rb"] 0 (by decide)⟩
